import Mathlib

/-!
Verification development for the `recli` repository: a reflection-based
command-tree builder that turns a Go struct into a tree of CLI commands
(`recli.go`, `utils.go`).

The Go code is shallowly embedded: `reflect.Value`s become the inductive
`GoVal` (with an addressability flag, `GoValue`), pure helper functions of
the source (`simplifyKind`, `toLowerDashCase`, `getPrimitiveValue`,
`setPrimitiveValueFromString`, `stringToPrimitiveValue`, `hasTag`,
`setDefaults`, `Construct`, the `make*Commands` builders and the bodies of
the leaf-action closures) become Lean functions over that embedding.
Go's three-way outcome of a call (normal value, returned `error`, runtime
panic) is the sum type `Outcome`.

Documented abstractions (each noted again at the definition it concerns):
* strings carry Go's byte/rune distinction through `Char.utf8Size`, but
  `unicode.IsUpper` / `unicode.ToLower` are modelled by their ASCII
  restriction (`Char.isUpper` / `Char.toLower`);
* floating point values are modelled as exact rationals (`Rat`); the
  claims under study never depend on IEEE-754 rounding;
* error strings drop the `[file:line]` suffix that `unsupportedKind`
  obtains from `runtime.Caller`, and `strconv` error messages are kept in
  the `strconv.ParseX: parsing "...": invalid syntax` shape;
* `v.CanAddr() && v.Addr().CanInterface()` is collapsed into the single
  flag `GoValue.canAddr` (the repository only builds commands for exported
  addressable fields, for which the two conjuncts agree).
-/

namespace Recli

/-- Outcome of running a piece of Go code: a normal result, a returned
`error`, or a runtime panic. -/
inductive Outcome (α : Type) where
  | ok (a : α)
  | err (e : String)
  | panic (e : String)
deriving DecidableEq, Repr

/-- Map over the normal result of an `Outcome`. -/
def Outcome.map {α β : Type} (f : α → β) : Outcome α → Outcome β
  | .ok a => .ok (f a)
  | .err e => .err e
  | .panic e => .panic e

/-- `reflect.Kind`, with the numbering of package `reflect` (used by the
ordered comparisons in `simplifyKind` and `isPrimitiveKind`). -/
inductive Kind where
  | invalid | bool | int | int8 | int16 | int32 | int64
  | uint | uint8 | uint16 | uint32 | uint64 | uintptr
  | float32 | float64 | complex64 | complex128
  | array | chan | func | interface' | map' | ptr | slice
  | string | struct' | unsafePointer
deriving DecidableEq, Repr

/-- The numeric value of each `reflect.Kind` constant. -/
def Kind.toNat : Kind → Nat
  | .invalid => 0 | .bool => 1 | .int => 2 | .int8 => 3 | .int16 => 4
  | .int32 => 5 | .int64 => 6 | .uint => 7 | .uint8 => 8 | .uint16 => 9
  | .uint32 => 10 | .uint64 => 11 | .uintptr => 12 | .float32 => 13
  | .float64 => 14 | .complex64 => 15 | .complex128 => 16 | .array => 17
  | .chan => 18 | .func => 19 | .interface' => 20 | .map' => 21
  | .ptr => 22 | .slice => 23 | .string => 24 | .struct' => 25
  | .unsafePointer => 26

/-- `reflect.Kind.String()` for the kinds the model can produce in error
messages. -/
def Kind.str : Kind → String
  | .invalid => "invalid" | .bool => "bool" | .int => "int"
  | .int8 => "int8" | .int16 => "int16" | .int32 => "int32"
  | .int64 => "int64" | .uint => "uint" | .uint8 => "uint8"
  | .uint16 => "uint16" | .uint32 => "uint32" | .uint64 => "uint64"
  | .uintptr => "uintptr" | .float32 => "float32" | .float64 => "float64"
  | .complex64 => "complex64" | .complex128 => "complex128"
  | .array => "array" | .chan => "chan" | .func => "func"
  | .interface' => "interface" | .map' => "map" | .ptr => "ptr"
  | .slice => "slice" | .string => "string" | .struct' => "struct"
  | .unsafePointer => "unsafe.Pointer"

/-- `simplifyKind` (utils): collapse every integer kind, signed or
unsigned (`reflect.Int <= k && k <= reflect.Uintptr`), to `reflect.Int`. -/
def simplifyKind (k : Kind) : Kind :=
  if Kind.int.toNat ≤ k.toNat ∧ k.toNat ≤ Kind.uintptr.toNat then .int else k

/-- `isPrimitiveKind` (recli.go): `reflect.Bool <= k && k <= reflect.Float64`
or `k == reflect.String`. -/
def isPrimitiveKind (k : Kind) : Bool :=
  (Kind.bool.toNat ≤ k.toNat ∧ k.toNat ≤ Kind.float64.toNat) || k = .string

/-- The message built by `unsupportedKindErr` (the `[file:line]` suffix
from `runtime.Caller` is dropped). -/
def unsupportedKindMsg (k : Kind) : String :=
  "unsupported kind: " ++ k.str

/-- Widths of the signed integer kinds (`int` is 64-bit). -/
inductive IntW where
  | i | i8 | i16 | i32 | i64
deriving DecidableEq, Repr

/-- Bit width of a signed integer kind. -/
def IntW.bits : IntW → Nat
  | .i => 64 | .i8 => 8 | .i16 => 16 | .i32 => 32 | .i64 => 64

/-- The `reflect.Kind` of a signed integer width. -/
def IntW.kind : IntW → Kind
  | .i => .int | .i8 => .int8 | .i16 => .int16 | .i32 => .int32
  | .i64 => .int64

/-- Widths of the unsigned integer kinds. -/
inductive UintW where
  | u | u8 | u16 | u32 | u64 | uptr
deriving DecidableEq, Repr

/-- The `reflect.Kind` of an unsigned integer width. -/
def UintW.kind : UintW → Kind
  | .u => .uint | .u8 => .uint8 | .u16 => .uint16 | .u32 => .uint32
  | .u64 => .uint64 | .uptr => .uintptr

/-- A `MarshalText`/`UnmarshalText` capability pair of an enum-like type
whose underlying kind is numeric (such as `AuthMode` in the README):
`marshal` renders the stored number as its symbolic name, `unmarshal`
parses a symbolic name back to the number; either side may fail with an
`error`. -/
structure TextCodec where
  marshal : Int → Except String String
  unmarshal : String → Except String Int

/-- The payload of a `reflect.Value` as far as the scalar codec is
concerned.  `enumV` is a value of a type implementing both
`encoding.TextMarshaler` and `encoding.TextUnmarshaler` with numeric
(`int`) underlying kind.  `nonPrim k` is an opaque value of a
non-primitive kind `k` (struct, map, ...), enough for the kind-dispatch
in `getPrimitiveValue` to reject it.  `invalid` is the zero
`reflect.Value` (as produced by `MapIndex` on an absent key). -/
inductive GoVal where
  | invalid
  | boolV (b : Bool)
  | intV (w : IntW) (n : Int)
  | uintV (w : UintW) (n : Int)
  | floatV (is32 : Bool) (q : Rat)
  | stringV (s : String)
  | enumV (codec : TextCodec) (n : Int)
  | nonPrim (k : Kind)

/-- Go `==` on the payloads the model stores in maps (codec functions are
ignored: Go compares an enum-like value by its underlying number). -/
def GoVal.goEq : GoVal → GoVal → Bool
  | .invalid, .invalid => true
  | .boolV a, .boolV b => a = b
  | .intV w a, .intV w' b => w = w' ∧ a = b
  | .uintV w a, .uintV w' b => w = w' ∧ a = b
  | .floatV f a, .floatV f' b => f = f' ∧ a = b
  | .stringV a, .stringV b => a = b
  | .enumV _ a, .enumV _ b => a = b
  | .nonPrim k, .nonPrim k' => k = k'
  | _, _ => false

/-- `reflect.Kind()` of a payload (an enum-like value has underlying kind
`int` in this model, matching the README's `AuthMode int`). -/
def GoVal.kind : GoVal → Kind
  | .invalid => .invalid
  | .boolV _ => .bool
  | .intV w _ => w.kind
  | .uintV w _ => w.kind
  | .floatV true _ => .float32
  | .floatV false _ => .float64
  | .stringV _ => .string
  | .enumV _ _ => .int
  | .nonPrim k => k

/-- A `reflect.Value`: a payload together with its addressability
(`CanAddr`; also standing for `CanSet` and `Addr().CanInterface()`, which
agree on the exported addressable fields the builder works with). -/
structure GoValue where
  canAddr : Bool
  val : GoVal

/-- `reflect.Kind()` of a value. -/
def GoValue.kind (v : GoValue) : Kind := v.val.kind

/-- The `interface{}` values `getPrimitiveValue` can return (and the two
printers can receive): `v.Bool()`, `v.Int()`, `v.Float()`, `v.String()`,
or the `string` of a `MarshalText` call. -/
inductive Prim where
  | b (b : Bool)
  | i (n : Int)
  | f (q : Rat)
  | s (s : String)
deriving DecidableEq, Repr

/-- `reflect.Value.Bool()`: panics unless the kind is `Bool`. -/
def GoValue.boolAcc (v : GoValue) : Outcome Bool :=
  match v.val with
  | .boolV b => .ok b
  | _ => .panic "reflect: call of reflect.Value.Bool on non-bool Value"

/-- `reflect.Value.Int()`: panics unless the kind is a signed integer
kind (`Int..Int64`); an enum-like value of underlying kind `int`
qualifies. -/
def GoValue.intAcc (v : GoValue) : Outcome Int :=
  match v.val with
  | .intV _ n => .ok n
  | .enumV _ n => .ok n
  | _ => .panic "reflect: call of reflect.Value.Int on non-int Value"

/-- `reflect.Value.Float()`: panics unless the kind is `Float32/Float64`. -/
def GoValue.floatAcc (v : GoValue) : Outcome Rat :=
  match v.val with
  | .floatV _ q => .ok q
  | _ => .panic "reflect: call of reflect.Value.Float on non-float Value"

/-- `reflect.Value.String()` (never panics; only ever reached on kind
`String` in the source). -/
def GoValue.stringAcc (v : GoValue) : Outcome String :=
  match v.val with
  | .stringV s => .ok s
  | v' => .ok ("<" ++ v'.kind.str ++ " Value>")

/-- `reflect.Value.OverflowInt(n)`: whether `n` cannot be represented in
the value's signed integer type; panics for every non-signed-integer
kind (in particular for every unsigned kind). -/
def GoValue.overflowInt (v : GoValue) (n : Int) : Outcome Bool :=
  match v.val with
  | .intV w _ => .ok (decide (n < -(2 ^ (w.bits - 1)) ∨ 2 ^ (w.bits - 1) ≤ n))
  | .enumV _ _ => .ok (decide (n < -(2 ^ 63) ∨ 2 ^ 63 ≤ n))
  | _ => .panic "reflect: call of reflect.Value.OverflowInt on non-int Value"

/-- `reflect.Value.SetBool`: panics if the value is unaddressable or not
of kind `Bool`. -/
def GoValue.setBool (v : GoValue) (b : Bool) : Outcome GoValue :=
  if !v.canAddr then .panic "reflect: reflect.Value.SetBool using unaddressable value"
  else match v.val with
    | .boolV _ => .ok ⟨true, .boolV b⟩
    | _ => .panic "reflect: call of reflect.Value.SetBool on non-bool Value"

/-- `reflect.Value.SetInt`: panics if the value is unaddressable or not
of a signed integer kind. -/
def GoValue.setInt (v : GoValue) (n : Int) : Outcome GoValue :=
  if !v.canAddr then .panic "reflect: reflect.Value.SetInt using unaddressable value"
  else match v.val with
    | .intV w _ => .ok ⟨true, .intV w n⟩
    | .enumV c _ => .ok ⟨true, .enumV c n⟩
    | _ => .panic "reflect: call of reflect.Value.SetInt on non-int Value"

/-- `reflect.Value.SetFloat` (IEEE rounding into a `float32` target is
abstracted away: the rational is stored exactly). -/
def GoValue.setFloat (v : GoValue) (q : Rat) : Outcome GoValue :=
  if !v.canAddr then .panic "reflect: reflect.Value.SetFloat using unaddressable value"
  else match v.val with
    | .floatV is32 _ => .ok ⟨true, .floatV is32 q⟩
    | _ => .panic "reflect: call of reflect.Value.SetFloat on non-float Value"

/-- `reflect.Value.SetString`. -/
def GoValue.setString (v : GoValue) (s : String) : Outcome GoValue :=
  if !v.canAddr then .panic "reflect: reflect.Value.SetString using unaddressable value"
  else match v.val with
    | .stringV _ => .ok ⟨true, .stringV s⟩
    | _ => .panic "reflect: call of reflect.Value.SetString on non-string Value"

/-- `strconv.ParseBool`: the exact set of accepted literals. -/
def parseBool (s : String) : Except String Bool :=
  if s = "1" ∨ s = "t" ∨ s = "T" ∨ s = "TRUE" ∨ s = "true" ∨ s = "True" then .ok true
  else if s = "0" ∨ s = "f" ∨ s = "F" ∨ s = "FALSE" ∨ s = "false" ∨ s = "False" then .ok false
  else .error ("strconv.ParseBool: parsing \"" ++ s ++ "\": invalid syntax")

/-- Value of a digit character in a given base, if valid. -/
def digitVal (base : Nat) (c : Char) : Option Nat :=
  let d :=
    if '0' ≤ c ∧ c ≤ '9' then some (c.toNat - '0'.toNat)
    else if 'a' ≤ c ∧ c ≤ 'z' then some (c.toNat - 'a'.toNat + 10)
    else if 'A' ≤ c ∧ c ≤ 'Z' then some (c.toNat - 'A'.toNat + 10)
    else none
  match d with
  | some d => if d < base then some d else none
  | none => none

/-- Read a non-empty digit string in a base. -/
def digitsVal (base : Nat) : List Char → Option Nat
  | [] => none
  | [c] => digitVal base c
  | c :: rest => do
    let d ← digitVal base c
    let r ← digitsVal base rest
    pure (d * base ^ rest.length + r)

/-- `strconv.ParseInt(s, 0, 0)` as used by `setPrimitiveValueFromString`:
base detected from the prefix (`0x`/`0o`/`0b`/leading `0` octal, else
decimal), result constrained to 64 bits (`bitSize 0` means `int`).
Digit-separating underscores are not modelled. -/
def parseInt (s : String) : Except String Int :=
  let invalid : Except String Int :=
    .error ("strconv.ParseInt: parsing \"" ++ s ++ "\": invalid syntax")
  let range : Except String Int :=
    .error ("strconv.ParseInt: parsing \"" ++ s ++ "\": value out of range")
  let withSign : List Char → (Bool × List Char)
    | '+' :: rest => (false, rest)
    | '-' :: rest => (true, rest)
    | cs => (false, cs)
  let (neg, cs) := withSign s.data
  let mag : Option Nat :=
    match cs with
    | '0' :: 'x' :: rest => digitsVal 16 rest
    | '0' :: 'X' :: rest => digitsVal 16 rest
    | '0' :: 'o' :: rest => digitsVal 8 rest
    | '0' :: 'O' :: rest => digitsVal 8 rest
    | '0' :: 'b' :: rest => digitsVal 2 rest
    | '0' :: 'B' :: rest => digitsVal 2 rest
    | '0' :: rest => if rest = [] then some 0 else digitsVal 8 rest
    | rest => digitsVal 10 rest
  match mag with
  | none => invalid
  | some m =>
    let n : Int := if neg then -(m : Int) else (m : Int)
    if n < -(2 ^ 63) ∨ 2 ^ 63 ≤ n then range else .ok n

/-- `strconv.ParseFloat` restricted to plain decimal notation
(`[+-]digits[.digits][e[+-]digits]`), producing an exact rational;
IEEE-754 rounding, hex floats, `Inf` and `NaN` are not modelled (the
claims under study do not depend on them). -/
def parseFloat (s : String) : Except String Rat :=
  let invalid : Except String Rat :=
    .error ("strconv.ParseFloat: parsing \"" ++ s ++ "\": invalid syntax")
  let withSign : List Char → (Bool × List Char)
    | '+' :: rest => (false, rest)
    | '-' :: rest => (true, rest)
    | cs => (false, cs)
  let (neg, cs) := withSign s.data
  let (ipart, rest1) := (cs.takeWhile Char.isDigit, cs.dropWhile Char.isDigit)
  let (fpart, rest2) :=
    match rest1 with
    | '.' :: r => (r.takeWhile Char.isDigit, r.dropWhile Char.isDigit)
    | _ => ([], rest1)
  let expPart : Option (Bool × List Char × List Char) :=
    match rest2 with
    | 'e' :: r => match (withSign r) with | (en, er) => some (en, er.takeWhile Char.isDigit, er.dropWhile Char.isDigit)
    | 'E' :: r => match (withSign r) with | (en, er) => some (en, er.takeWhile Char.isDigit, er.dropWhile Char.isDigit)
    | _ => none
  if ipart = [] ∧ fpart = [] then invalid
  else
    let iv := (digitsVal 10 ipart).getD 0
    let fv := (digitsVal 10 fpart).getD 0
    let base : Rat := (iv : Rat) + (fv : Rat) / ((10 : Rat) ^ fpart.length)
    let signed : Rat := if neg then -base else base
    match expPart with
    | none =>
      if rest2 = [] then .ok signed else invalid
    | some (en, ed, etail) =>
      if ed = [] ∨ etail ≠ [] then invalid
      else
        let e := (digitsVal 10 ed).getD 0
        .ok (if en then signed / (10 : Rat) ^ e else signed * (10 : Rat) ^ e)

/-- `getPrimitiveValue` (utils): if the value's address implements
`encoding.TextMarshaler`, marshal (returning the marshal error verbatim
if it fails); otherwise dispatch on the simplified kind, reading the raw
scalar; any other kind is an unsupported-kind error. -/
def getPrimitiveValue (v : GoValue) : Outcome Prim :=
  match v.canAddr, v.val with
  | true, .enumV c n =>
    match c.marshal n with
    | .ok s => .ok (.s s)
    | .error e => .err e
  | _, _ =>
    match simplifyKind v.kind with
    | .bool => v.boolAcc.map Prim.b
    | .int => v.intAcc.map Prim.i
    | .float32 => v.floatAcc.map Prim.f
    | .float64 => v.floatAcc.map Prim.f
    | .string => v.stringAcc.map Prim.s
    | k => .err (unsupportedKindMsg k)

/-- `setPrimitiveValueFromString` (utils): if the value's address
implements `encoding.TextUnmarshaler`, delegate (surfacing its error
verbatim); otherwise parse the text per the simplified kind, checking
integer overflow against the declared width; any other kind is an
unsupported-kind error.  The returned `GoValue` is the updated cell. -/
def setPrimitiveValueFromString (v : GoValue) (arg : String) : Outcome GoValue :=
  match v.canAddr, v.val with
  | true, .enumV c _ =>
    match c.unmarshal arg with
    | .ok m => .ok ⟨true, .enumV c m⟩
    | .error e => .err e
  | _, _ =>
    match simplifyKind v.kind with
    | .bool =>
      match parseBool arg with
      | .error e => .err e
      | .ok cv => v.setBool cv
    | .int =>
      match parseInt arg with
      | .error e => .err e
      | .ok cv =>
        match v.overflowInt cv with
        | .ok true => .err ("value overflows: " ++ toString cv)
        | .ok false => v.setInt cv
        | .err e => .err e
        | .panic e => .panic e
    | .float32 =>
      match parseFloat arg with
      | .error e => .err e
      | .ok cv => v.setFloat cv
    | .float64 =>
      match parseFloat arg with
      | .error e => .err e
      | .ok cv => v.setFloat cv
    | .string => v.setString arg
    | k => .err (unsupportedKindMsg k)

/-- A scalar-level Go type, enough to create the fresh zero value that
`stringToPrimitiveValue` builds with `reflect.New(t).Elem()` (and to
describe map key/value types).  `other k` is a type of a non-primitive
kind `k` that implements no text codec. -/
inductive SType where
  | bool
  | int (w : IntW)
  | uint (w : UintW)
  | float (is32 : Bool)
  | string
  | enum (codec : TextCodec)
  | other (k : Kind)

/-- The zero value of a scalar-level type. -/
def SType.zero : SType → GoVal
  | .bool => .boolV false
  | .int w => .intV w 0
  | .uint w => .uintV w 0
  | .float is32 => .floatV is32 0
  | .string => .stringV ""
  | .enum c => .enumV c 0
  | .other k => .nonPrim k

/-- The `reflect.Kind` of a scalar-level type. -/
def SType.kind : SType → Kind
  | .bool => .bool
  | .int w => w.kind
  | .uint w => w.kind
  | .float true => .float32
  | .float false => .float64
  | .string => .string
  | .enum _ => .int
  | .other k => k

/-- `stringToPrimitiveValue` (utils): build an addressable zero value of
the type and fill it from the text. -/
def stringToPrimitiveValue (arg : String) (t : SType) : Outcome GoValue :=
  setPrimitiveValueFromString ⟨true, t.zero⟩ arg

/-- Accumulator loop of `splitComma`. -/
def splitCommaAux : List Char → List Char → List String
  | [], acc => [⟨acc.reverse⟩]
  | ',' :: rest, acc => (⟨acc.reverse⟩ : String) :: splitCommaAux rest []
  | c :: rest, acc => splitCommaAux rest (c :: acc)

/-- `strings.Split(s, ",")`: every comma-separated piece, in order (the
empty string yields `[""]`, as in Go). -/
def splitComma (s : String) : List String :=
  splitCommaAux s.data []

/-- `hasTag` (utils): whether the comma-separated value list under the
tag's name contains the tag's value (`strings.Split(tag.Get(name), ",")`;
an absent key yields `""`, which splits to `[""]`). -/
def hasTag (tags : List (String × String)) (tag : String × String) : Bool :=
  (splitComma (((tags.find? (fun p => p.1 = tag.1)).map Prod.snd).getD "")).contains tag.2

/-!  ### `toLowerDashCase`

`for i, r := range arg` iterates runes with `i` the *byte* offset of the
rune, and `len(arg)` is the byte length, so the "unit suffix" test
`i != len(arg)-1` asks whether the rune starts at the last byte.
`unicode.IsUpper` / `unicode.ToLower` are modelled by their ASCII
restriction (`Char.isUpper` / `Char.toLower`). -/

/-- The UTF-8 byte length of a rune sequence (`len(arg)` for a Go
string). -/
def byteLen (cs : List Char) : Nat :=
  cs.foldr (fun c n => c.utf8Size + n) 0

/-- The loop of `toLowerDashCase` (utils): `n` is the byte length of the
whole argument, `i` the byte offset of the current rune, `prevUp` the
`previousUppercase` flag. -/
def tldAux (n : Nat) : List Char → Nat → Bool → List Char
  | [], _, _ => []
  | r :: rest, i, prevUp =>
    let out : List Char :=
      if i = 0 then [r.toLower]
      else if r.isUpper then
        -- If it's the last rune, and it's uppercase, it's probably a
        -- unit suffix, so skip the dash
        if !prevUp ∧ i ≠ n - 1 then ['-', r.toLower] else [r.toLower]
      else [r]
    out ++ tldAux n rest (i + r.utf8Size) r.isUpper

/-- `toLowerDashCase` (utils): the default `FieldNameConverter`. -/
def toLowerDashCase (arg : String) : String :=
  ⟨tldAux (byteLen arg.data) arg.data 0 false⟩

/-!  ### Map commands (`makeMapCommands`)

The four leaf-action closure bodies of `makeMapCommands`, as functions of
the captured map value.  A Go map value is its key type, its value type
and its current entries; `MapIndex` values and `MapKeys` elements are not
addressable, and `MapIndex` on an absent key returns the zero
`reflect.Value`.  A returned `.ok` carries what the configured printer
was handed (the leaf action then returns `nil`). -/

/-- A map-shaped field's captured value. -/
structure GoMap where
  keyType : SType
  valType : SType
  entries : List (GoVal × GoVal)

/-- `MapIndex`: the value stored under a key, or the zero `reflect.Value`
if absent; never addressable. -/
def GoMap.mapIndex (m : GoMap) (k : GoVal) : GoValue :=
  ⟨false, ((m.entries.find? (fun p => p.1.goEq k)).map Prod.snd).getD .invalid⟩

/-- Body of the map `get <key>` leaf: parse the key, look it up, and
print the result of `getPrimitiveValue` with the `ValuePrinter`.
`.ok p` means `p` was printed and the action returned `nil`. -/
def mapGetAction (m : GoMap) (arg : String) : Outcome Prim :=
  match stringToPrimitiveValue arg m.keyType with
  | .err e => .err e
  | .panic e => .panic e
  | .ok keyValue => getPrimitiveValue (m.mapIndex keyValue.val)

/-- Body of the map `dump` leaf: for every entry, read key and value as
primitives and hand them to the `KeyValuePrinter`; the first failure
aborts the action.  `.ok l` is the list of printed pairs. -/
def mapDumpAction (m : GoMap) : Outcome (List (Prim × Prim)) :=
  m.entries.foldr
    (fun kv acc =>
      match getPrimitiveValue ⟨false, kv.1⟩ with
      | .err e => .err e
      | .panic e => .panic e
      | .ok ki =>
        match getPrimitiveValue ⟨false, kv.2⟩ with
        | .err e => .err e
        | .panic e => .panic e
        | .ok vi =>
          match acc with
          | .ok rest => .ok ((ki, vi) :: rest)
          | e => e)
    (.ok [])

/-!  ### Defaults Engine (`setDefaults`)

A record graph is a heap of `N` struct nodes, one per distinct address
(`s.Addr().Pointer()`); pointer-to-struct fields and inline struct fields
both appear, after `deref`, as a `structRef` to the address they occupy
(an inline nested struct has its own, distinct address).  All nodes are
addressable and exported, as they are in every call the repository makes.
`setDefaults` cannot be a structural recursion — the graph may be cyclic —
so the model takes explicit fuel, with a distinguished `fuelOut` result;
the termination theorem shows `N + 2` fuel always suffices.
Besides the updated heap and the final `visited` set, the result carries
the trace of default applications as `(address, field index)` pairs, one
entry per `ParseDefault` delegation, scalar-codec parse, or
comma-separated slice fill. -/

/-- The shape of one struct field as `setDefaults` classifies it, in the
order of its checks: a (dereferenced) struct field, a field with the
`ParseDefaulter` capability, a primitive (or text-codec) field, a
slice/array of simplified-`int` or of `string` element kind, or any other
unsupported kind. -/
inductive DShape (N : Nat) where
  | structRef (a : Fin N)
  | parseDef (run : String → Option String)
  | prim (v : GoVal)
  | intSlice (xs : List Int)
  | strSlice (xs : List String)
  | unsup (k : Kind)

/-- One struct field: its shape and the value of its default tag
(`tag.Get(tagName)`; `""` when absent). -/
structure DField (N : Nat) where
  shape : DShape N
  dtag : String

/-- A record graph: the field list of each of the `N` struct nodes. -/
def Heap (N : Nat) : Type := Fin N → List (DField N)

/-- Write a new shape into field `i` of node `a` (the tag is metadata of
the type and never changes). -/
def heapUpdate {N : Nat} (heap : Heap N) (a : Fin N) (i : Nat) (f : DField N) : Heap N :=
  fun b => if b = a then (heap a).set i f else heap b

/-- Result of a `setDefaults` run: normal completion (updated heap, the
`seen` set, the trace of default applications), a returned error, a
panic, or fuel exhaustion (an artefact of the model; see
`c3_setDefaults_cycle_safe`). -/
inductive DRes (N : Nat) where
  | dok (heap : Heap N) (seen : Finset (Fin N)) (apps : List (Fin N × Nat))
  | derr (e : String)
  | dpanic (e : String)
  | fuelOut

/-- Prepend one application to the trace of a result. -/
def DRes.withApp {N : Nat} (p : Fin N × Nat) : DRes N → DRes N
  | .dok h s apps => .dok h s (p :: apps)
  | e => e

/-- Prepend a batch of applications to the trace of a result. -/
def DRes.withApps {N : Nat} (l : List (Fin N × Nat)) : DRes N → DRes N
  | .dok h s apps => .dok h s (l ++ apps)
  | e => e

/-- `strconv.ParseInt(si, 10, 64)` as used for slice defaults: optional
sign, decimal digits, 64-bit range. -/
def parseInt10 (s : String) : Except String Int :=
  let withSign : List Char → (Bool × List Char)
    | '+' :: rest => (false, rest)
    | '-' :: rest => (true, rest)
    | cs => (false, cs)
  let (neg, cs) := withSign s.data
  match digitsVal 10 cs with
  | none => .error ("strconv.ParseInt: parsing \"" ++ s ++ "\": invalid syntax")
  | some m =>
    let n : Int := if neg then -(m : Int) else (m : Int)
    if n < -(2 ^ 63) ∨ 2 ^ 63 ≤ n then
      .error ("strconv.ParseInt: parsing \"" ++ s ++ "\": value out of range")
    else .ok n

/-- Parse a comma-separated list of decimal integers, as the `[]int`
default branch of `setDefaults` does. -/
def parseIntList (v : String) : Except String (List Int) :=
  (splitComma v).foldr
    (fun si acc => do
      let i ← parseInt10 si
      let rest ← acc
      pure (i :: rest))
    (.ok [])

/-- The field loop of `setDefaults`, over the remaining fields of node
`addr` starting at index `i`: recurse (through `recur`, which stands for
`setDefaults` itself at one fuel less) into struct fields — before
looking at their tag —, skip fields with no default tag, and otherwise
apply the default through `ParseDefault`, the scalar codec, or the
comma-separated slice parsers; any other kind with a default tag is a
wrapped unsupported-kind error. -/
def setDefaultsFields {N : Nat}
    (recur : Heap N → Fin N → Option (Finset (Fin N)) → DRes N)
    (heap : Heap N) (addr : Fin N) (seen : Finset (Fin N)) (i : Nat) :
    List (DField N) → DRes N
  | [] => .dok heap seen []
  | f :: rest =>
    match f.shape with
    | .structRef a =>
      match recur heap a (some seen) with
      | .dok h' seen' apps =>
        (setDefaultsFields recur h' addr seen' (i + 1) rest).withApps apps
      | .derr e => .derr e
      | .dpanic e => .dpanic e
      | .fuelOut => .fuelOut
    | .parseDef run =>
      if f.dtag = "" then setDefaultsFields recur heap addr seen (i + 1) rest
      else
        match run f.dtag with
        | some e => .derr e
        | none => (setDefaultsFields recur heap addr seen (i + 1) rest).withApp (addr, i)
    | .prim v =>
      if f.dtag = "" then setDefaultsFields recur heap addr seen (i + 1) rest
      else
        match setPrimitiveValueFromString ⟨true, v⟩ f.dtag with
        | .ok v' =>
          (setDefaultsFields recur (heapUpdate heap addr i ⟨.prim v'.val, f.dtag⟩)
            addr seen (i + 1) rest).withApp (addr, i)
        | .err e => .derr e
        | .panic e => .dpanic e
    | .intSlice _ =>
      if f.dtag = "" then setDefaultsFields recur heap addr seen (i + 1) rest
      else
        match parseIntList f.dtag with
        | .error e => .derr e
        | .ok xs =>
          (setDefaultsFields recur (heapUpdate heap addr i ⟨.intSlice xs, f.dtag⟩)
            addr seen (i + 1) rest).withApp (addr, i)
    | .strSlice _ =>
      if f.dtag = "" then setDefaultsFields recur heap addr seen (i + 1) rest
      else
        (setDefaultsFields recur (heapUpdate heap addr i ⟨.strSlice (splitComma f.dtag), f.dtag⟩)
          addr seen (i + 1) rest).withApp (addr, i)
    | .unsup k =>
      if f.dtag = "" then setDefaultsFields recur heap addr seen (i + 1) rest
      else .derr ("setDefaults: " ++ unsupportedKindMsg k)

/-- `setDefaults(tagName, data, seen)` (utils): on the first call `seen`
is `nil` (`none`), so the already-visited check is skipped; either way
the node's address is recorded before its fields are walked, then the
fields are processed in order by `setDefaultsFields`.  The fuel only
bounds the depth of nested `setDefaults` calls; `c3_setDefaults_cycle_safe`
shows `N + 2` always suffices, which is the model's rendering of the
termination the `seen` set buys the Go code. -/
def setDefaultsGo {N : Nat} : Nat → Heap N → Fin N → Option (Finset (Fin N)) → DRes N
  | 0, _, _, _ => .fuelOut
  | fuel + 1, heap, addr, seen =>
    let s0 := seen.getD ∅
    if seen.isSome ∧ addr ∈ s0 then .dok heap s0 []
    else setDefaultsFields (setDefaultsGo fuel) heap addr (insert addr s0) 0 (heap addr)

/-!  ### Flag-based `add` (`makeSliceItemBuilders`)

The body of the flag-based `add` leaf for a slice of (flat) struct
elements: reject a call with zero flags, build a zero element, run
`setDefaults` on it, then overlay every field whose flag the caller set.
The member struct is modelled as a flat list of scalar / slice fields
(the shapes the repository's README exercises); its zero value is a
one-node heap so the very same `setDefaultsGo` model is reused. -/

/-- The declared type of one field of the slice member struct. -/
inductive AddFType where
  | primT (t : SType)
  | intSliceT
  | strSliceT
  | otherT (k : Kind)

/-- One field of the slice member struct: name, default-tag value
(`""` when absent), declared type. -/
structure AddField where
  name : String
  dtag : String
  ftype : AddFType

/-- `reflect.New(memberType).Elem()`, fieldwise: the zero value of a
member field, as a defaults-engine field of a one-node heap. -/
def AddField.zeroD (m : AddField) : DField 1 :=
  match m.ftype with
  | .primT t => ⟨.prim t.zero, m.dtag⟩
  | .intSliceT => ⟨.intSlice [], m.dtag⟩
  | .strSliceT => ⟨.strSlice [], m.dtag⟩
  | .otherT k => ⟨.unsup k, m.dtag⟩

/-- The parsed-flag environment a `cli.Context` hands the action:
how many flags were set, which flag names are set, and the values
`ctx.Generic(name).(flag.Value).String()`, `ctx.IntSlice(name)` and
`ctx.StringSlice(name)` return. -/
structure FlagCtx where
  numFlags : Nat
  isSet : String → Bool
  genericStr : String → String
  intSliceV : String → List Int
  stringSliceV : String → List String

/-- The overlay loop of the `add` action: for each member field whose
flag was set, write the flag's value through the scalar codec if the
field is primitive; otherwise, for an array/slice-kind field, the source
calls `fieldValue.Elem()` — `reflect.Value.Elem` on a slice `Value`,
which panics; fields of any other kind are silently skipped. -/
def overlayFlags (ctx : FlagCtx) (conv : String → String) :
    List AddField → List (DField 1) → Outcome (List (DField 1))
  | [], fs => .ok fs
  | _ :: _, [] => .ok []
  | m :: ms, f :: fs =>
    if ctx.isSet (conv m.name) then
      match f.shape with
      | .prim v =>
        match setPrimitiveValueFromString ⟨true, v⟩ (ctx.genericStr (conv m.name)) with
        | .ok v' => (overlayFlags ctx conv ms fs).map (⟨.prim v'.val, f.dtag⟩ :: ·)
        | .err e => .err e
        | .panic e => .panic e
      | .intSlice _ => .panic "reflect: call of reflect.Value.Elem on slice Value"
      | .strSlice _ => .panic "reflect: call of reflect.Value.Elem on slice Value"
      | sh => (overlayFlags ctx conv ms fs).map (⟨sh, f.dtag⟩ :: ·)
    else (overlayFlags ctx conv ms fs).map (f :: ·)

/-- Body of the flag-based `add` leaf (recli.go, `makeSliceItemBuilders`):
`no properties specified` when zero flags are set; otherwise zero
element → `setDefaults` → flag overlay → append to the collection. -/
def addAction (conv : String → String) (members : List AddField) (ctx : FlagCtx)
    (coll : List (List (DField 1))) : Outcome (List (List (DField 1))) :=
  if ctx.numFlags = 0 then .err "no properties specified"
  else
    let heap0 : Heap 1 := fun _ => members.map AddField.zeroD
    match setDefaultsGo 3 heap0 ⟨0, Nat.one_pos⟩ none with
    | .derr e => .err e
    | .dpanic e => .panic e
    | .fuelOut => .panic "model artefact: out of fuel"
    | .dok h' _ _ =>
      match overlayFlags ctx conv members (h' ⟨0, Nat.one_pos⟩) with
      | .ok newFields => .ok (coll ++ [newFields])
      | .err e => .err e
      | .panic e => .panic e

/-!  ### Command Tree Builder (`Construct`, `getCommandsForValue`,
`makeSliceCommands`, `makeSliceAccessorCommands`, `makeMapCommands`,
`makePrimitiveCommands`, `makeJsonDumper`)

The tree structure of the produced `cli.Command`s: name, usage, category
and subcommands (flags and leaf actions carry no sibling names; the leaf
action bodies are modelled separately above).  Types and values are
carried side by side, since Go derives both from the one
`reflect.Value`.  Values reachable from the root pointer are addressable
and exported, so `CanAddr`/`CanInterface` checks hold; the pointer
wrapper `Construct` dereferences (and `deref`) is left implicit. -/

/-- The declared type of a field, as far as tree construction needs it.
A struct type lists its fields as (name, tags, anonymous, type). -/
inductive CType where
  | prim (t : SType)
  | structT (fields : List (String × List (String × String) × Bool × CType))
  | mapT (key : SType) (val : SType)
  | sliceT (elem : CType)
  | otherT (k : Kind)

/-- A struct field of the tree model: name, tags, `Anonymous`, type. -/
abbrev CFieldT := String × List (String × String) × Bool × CType

/-- The `reflect.Kind` of a tree-model type. -/
def CType.kind : CType → Kind
  | .prim t => t.kind
  | .structT _ => .struct'
  | .mapT _ _ => .map'
  | .sliceT _ => .slice
  | .otherT k => k

/-- `isPrimitive` (recli.go) at the type level: a primitive kind, or a
type whose address implements both text-codec directions. -/
def isPrimitiveC : CType → Bool
  | .prim (.enum _) => true
  | .prim t => isPrimitiveKind t.kind
  | _ => false

/-- A value of a tree-model type. -/
inductive CVal where
  | primV (v : GoVal)
  | structV (fields : List CVal)
  | mapV (entries : List (GoVal × GoVal))
  | sliceV (elems : List CVal)
  | otherV

/-- View a tree-model value as a scalar-codec value (addressable, since
it sits under the root pointer); non-scalar values are opaque. -/
def CVal.asGoValue : CVal → GoValue
  | .primV gv => ⟨true, gv⟩
  | .structV _ => ⟨true, .nonPrim .struct'⟩
  | .mapV _ => ⟨true, .nonPrim .map'⟩
  | .sliceV _ => ⟨true, .nonPrim .slice⟩
  | .otherV => ⟨true, .invalid⟩

/-- A produced `cli.Command`: name, usage, category, subcommands. -/
inductive Cmd where
  | mk (name usage category : String) (sub : List Cmd)

/-- The name of a command. -/
def Cmd.name : Cmd → String
  | .mk n _ _ _ => n

/-- The subcommands of a command. -/
def Cmd.sub : Cmd → List Cmd
  | .mk _ _ _ s => s

/-- The caller-supplied `Config`, restricted to what tree construction
reads (the two printers live in the separately modelled leaf bodies). -/
structure CConfig where
  skipTag : String × String
  idTag : String × String
  usageTagName : String
  defaultTagName : String
  conv : String → String

/-- `DefaultConfig` (recli.go): `recli:"-"` skip tag, `recli:"id"` id
tag, `usage` / `default` tag names, `toLowerDashCase` converter. -/
def defaultCConfig : CConfig :=
  ⟨("recli", "-"), ("recli", "id"), "usage", "default", toLowerDashCase⟩

/-- `Tag.Get`: the raw value stored under a tag key (`""` if absent). -/
def tagGet (tags : List (String × String)) (name : String) : String :=
  ((tags.find? (fun p => p.1 = name)).map Prod.snd).getD ""

/-- Unexported iff `PkgPath != ""`, i.e. the field name does not start
with an upper-case letter (ASCII model of Go's exportedness rule). -/
def isUnexportedName (s : String) : Bool :=
  !(s.data.headD 'a').isUpper

/-- `fmt.Sprint` of a value returned by `getPrimitiveValue` (floats
print as rationals in the model; no claim keys a collection by a float
field). -/
def primSprint : Prim → String
  | .b b => if b then "true" else "false"
  | .i n => toString n
  | .f q => toString q
  | .s s => s

/-- The two commands of `makePrimitiveCommands`: `get`, and `set` when
the binding is settable (always, for the addressable fields modelled). -/
def makePrimitiveCommandsM : List Cmd :=
  [.mk "get" "Get the value" "ACTIONS" [],
   .mk "set" "Set the value" "ACTIONS" []]

/-- The four commands of `makeMapCommands` — note: returned for *every*
map-shaped field, whatever its key/value kinds; there is no
construction-time check. -/
def makeMapCommandsM : List Cmd :=
  [.mk "dump" "Dump all keys and their values" "ACTIONS" [],
   .mk "get" "Get the value of a given key" "ACTIONS" [],
   .mk "set" "Set the key to the given value" "ACTIONS" [],
   .mk "unset" "Remove the key from the map" "ACTIONS" []]

/-- `makeJsonDumper`'s command. -/
def dumpJsonCmd : Cmd := .mk "dump-json" "Dump item as json" "ACTIONS" []

/-- The per-element `delete` leaf. -/
def deleteCmd (key : String) : Cmd :=
  .mk "delete"
    ("Delete item represented by key \"" ++ key ++ "\" from the collection")
    "ACTIONS" []

/-- The collection-level `list` leaf. -/
def listCmd : Cmd := .mk "list" "List item keys in the collection" "ACTIONS" []

/-- The `add` leaf for scalar elements. -/
def addPrimCmd : Cmd := .mk "add" "Add a new item to collection" "ACTIONS" []

/-- The two commands of `makeSliceItemBuilders`. -/
def sliceItemBuilderCmds : List Cmd :=
  [.mk "add" "Add a new item to collection" "ACTIONS" [],
   .mk "add-json" "Add a new item to collection deserialised from JSON" "ACTIONS" []]

/-- The keyer of `makeSliceCommands`: positional index rendered with
`fmt.Sprint`, unless a struct member field carries the id tag, in which
case that field's primitive value is rendered (errors and panics of
`getPrimitiveValue` propagate). -/
def sliceKeyer (idIdx : Option Nat) (i : Nat) (v : CVal) : Outcome String :=
  match idIdx with
  | none => .ok (toString i)
  | some mi =>
    match v with
    | .structV fv =>
      match fv.get? mi with
      | some fval => (getPrimitiveValue fval.asGoValue).map primSprint
      | none => .panic "reflect: Field index out of range"
    | _ => .panic "reflect: call of reflect.Value.Field on non-struct Value"

/-- The field loop of `Construct`, with `recur` standing for
`getCommandsForValue` at one fuel less: skip anonymous, skip-tagged and
unexported fields; wrap a field's construction error with the field's
name. -/
def constructFieldsGo (recur : CType → CVal → Outcome (List Cmd)) (cfg : CConfig) :
    List CFieldT → List CVal → Outcome (List Cmd)
  | [], _ => .ok []
  | _ :: _, [] => .ok []
  | (name, tags, anon, t) :: fs, v :: vs =>
    if anon || hasTag tags cfg.skipTag || isUnexportedName name then
      constructFieldsGo recur cfg fs vs
    else
      match recur t v with
      | .ok sub =>
        (constructFieldsGo recur cfg fs vs).map
          (Cmd.mk (cfg.conv name) (tagGet tags cfg.usageTagName) "PROPERTIES" sub :: ·)
      | .err e => .err (name ++ ": " ++ e)
      | .panic e => .panic e

/-- `Construct` (recli.go) on a struct's fields: the field loop, then
the appended `dump-json` leaf. -/
def constructGo (recur : CType → CVal → Outcome (List Cmd)) (cfg : CConfig)
    (fields : List CFieldT) (vals : List CVal) : Outcome (List Cmd) :=
  match constructFieldsGo recur cfg fields vals with
  | .ok cmds => .ok (cmds ++ [dumpJsonCmd])
  | .err e => .err e
  | .panic e => .panic e

/-- `makeSliceAccessorCommands` (recli.go): one node per element, named
by the keyer, holding the element's subtree plus a `delete` leaf.  A
keyer failure aborts construction, but — as in the source — the error of
the element's `getCommandsForValue` is dropped (recli.go:213), the
element node then holding only `delete`. -/
def sliceAccessorsGo (recur : CType → CVal → Outcome (List Cmd))
    (member : CType) (idIdx : Option Nat) (i : Nat) : List CVal → Outcome (List Cmd)
  | [] => .ok []
  | v :: vs =>
    match sliceKeyer idIdx i v with
    | .err e => .err e
    | .panic e => .panic e
    | .ok key =>
      let keyCmds :=
        match recur member v with
        | .ok cs => cs
        | .err _ => []
        | .panic _ => []
      (sliceAccessorsGo recur member idIdx (i + 1) vs).map
        (Cmd.mk key "" "ITEMS" (keyCmds ++ [deleteCmd key]) :: ·)

/-- `makeSliceCommands` (recli.go): reject non-primitive non-struct
element kinds; pick the keyer (id-tagged member field if any, else
position); element accessor nodes, then `list`, then the `add` leaves. -/
def makeSliceCommandsGo (recur : CType → CVal → Outcome (List Cmd)) (cfg : CConfig)
    (member : CType) (elems : List CVal) : Outcome (List Cmd) :=
  let primitive := isPrimitiveKind member.kind
  if !primitive ∧ member.kind ≠ .struct' then .err (unsupportedKindMsg member.kind)
  else
    let idIdx : Option Nat :=
      if primitive then none
      else
        match member with
        | .structT fields => fields.findIdx? (fun f => hasTag f.2.1 cfg.idTag)
        | _ => none
    match sliceAccessorsGo recur member idIdx 0 elems with
    | .ok acc =>
      .ok (acc ++ [listCmd] ++ (if primitive then [addPrimCmd] else sliceItemBuilderCmds))
    | .err e => .err e
    | .panic e => .panic e

/-- `getCommandsForValue` (recli.go): primitive → scalar leaves; map →
map leaves (no kind check); addressable struct → recurse; slice/array →
collection builder; anything else is an unsupported-kind error.  The
fuel bounds the nesting depth of the declared type (Go types nest
finitely, so any fuel beyond that depth computes the same tree; the
`panic` at zero fuel is a model artefact no theorem relies on). -/
def getCommandsForValueGo : Nat → CConfig → CType → CVal → Outcome (List Cmd)
  | 0, _, _, _ => .panic "model artefact: type nesting deeper than fuel"
  | fuel + 1, cfg, t, v =>
    if isPrimitiveC t then .ok makePrimitiveCommandsM
    else
      match t, v with
      | .mapT _ _, _ => .ok makeMapCommandsM
      | .structT fields, .structV vals =>
        constructGo (getCommandsForValueGo fuel cfg) cfg fields vals
      | .sliceT elem, .sliceV elems =>
        makeSliceCommandsGo (getCommandsForValueGo fuel cfg) cfg elem elems
      | t, _ => .err (unsupportedKindMsg t.kind)

/-- The exported `Construct` on a (pointer to a) struct value. -/
def ConstructM (fuel : Nat) (cfg : CConfig) (t : CType) (v : CVal) : Outcome (List Cmd) :=
  match t, v with
  | .structT fields, .structV vals =>
    constructGo (getCommandsForValueGo fuel cfg) cfg fields vals
  | t, _ => .err ("expected pointer to a struct got a pointer to: " ++ t.kind.str)

/-- Whether every list of sibling names in a forest of commands is
duplicate-free, at every level. -/
def namesUniqueB (l : List String) : Bool :=
  match l with
  | [] => true
  | x :: xs => !xs.contains x && namesUniqueB xs

mutual

/-- Sibling-name uniqueness, recursively, below one command. -/
def cmdNamesUnique : Cmd → Bool
  | .mk _ _ _ sub => namesUniqueB (sub.map Cmd.name) && allCmdsUnique sub

/-- Sibling-name uniqueness, recursively, in every tree of a list. -/
def allCmdsUnique : List Cmd → Bool
  | [] => true
  | c :: cs => cmdNamesUnique c && allCmdsUnique cs

end

/-- Sibling-name uniqueness, recursively, of a forest: the root names
are pairwise distinct and every subtree satisfies the same. -/
def forestNamesUnique (l : List Cmd) : Bool :=
  namesUniqueB (l.map Cmd.name) && allCmdsUnique l

/-- Sibling-name uniqueness of a `Construct` result (vacuously true on a
failed construction). -/
def resultNamesUnique : Outcome (List Cmd) → Bool
  | .ok cs => forestNamesUnique cs
  | _ => true

/-!  ### Projections and reachability for the defaults engine -/

/-- Whether the result of a run is a normal completion. -/
def Outcome.isOk {α : Type} : Outcome α → Bool
  | .ok _ => true
  | _ => false

/-- The application trace of a defaults run, when it completed. -/
def DRes.appsOf {N : Nat} : DRes N → Option (List (Fin N × Nat))
  | .dok _ _ apps => some apps
  | _ => none

/-- The final field list of one node of a completed defaults run. -/
def DRes.nodeAt {N : Nat} (r : DRes N) (a : Fin N) : Option (List (DField N)) :=
  match r with
  | .dok h _ _ => some (h a)
  | _ => none

/-- The struct node a field points into, if it is a struct field. -/
def DShape.isStructRef {N : Nat} : DShape N → Option (Fin N)
  | .structRef a => some a
  | _ => none

/-- Whether a field is a leaf (non-struct, supported) field carrying a
default tag — exactly the fields `setDefaults` applies a default to. -/
def DField.isLeafDefault {N : Nat} (f : DField N) : Bool :=
  (f.dtag ≠ "" : Bool) &&
    (match f.shape with
     | .structRef _ => false
     | .unsup _ => false
     | _ => true)

/-- The construction-invariant part of a field: its struct target (if
any), its leaf-default status, and its tag.  Default application only
rewrites payloads, never this skeleton. -/
def DField.skel {N : Nat} (f : DField N) : Option (Fin N) × Bool × String :=
  (f.shape.isStructRef, f.isLeafDefault, f.dtag)

/-- Two heaps with the same skeleton everywhere. -/
def SkelEq {N : Nat} (h h' : Heap N) : Prop :=
  ∀ a, (h a).map DField.skel = (h' a).map DField.skel

/-- The struct nodes a node's fields point into. -/
def structSuccs {N : Nat} (fs : List (DField N)) : List (Fin N) :=
  fs.filterMap (fun f => f.shape.isStructRef)

/-- One edge of the record graph: `b` occupies a struct field of `a`. -/
def DStep {N : Nat} (heap : Heap N) (a b : Fin N) : Prop :=
  b ∈ structSuccs (heap a)

/-- Reachability along struct fields. -/
def Reaches {N : Nat} (heap : Heap N) : Fin N → Fin N → Prop :=
  Relation.ReflTransGen (DStep heap)

/-- Field `i` of node `a` is a leaf field carrying a default tag. -/
def DefaultedIdx {N : Nat} (heap : Heap N) (a : Fin N) (i : Nat) : Prop :=
  ∃ f, (heap a)[i]? = some f ∧ f.isLeafDefault = true

/-!  ### The README's `AuthMode` codec -/

/-- `AuthMode.MarshalText` / `AuthMode.UnmarshalText` from the README's
example: symbolic values `static` (0) and `ldap` (1). -/
def authModeCodec : TextCodec where
  marshal n :=
    if n = 0 then .ok "static"
    else if n = 1 then .ok "ldap"
    else .error ("unknown value: " ++ toString n)
  unmarshal s :=
    if s = "ldap" then .ok 1
    else if s = "static" then .ok 0
    else .error ("unknown value: " ++ s)

/-!  ### Example fixtures

The README's `Config`/`Backend` example and the cyclic
`DefaultStruct`/`Inner` graph of `utils_test.go`, used as concrete
instances by several theorems below. -/

/-- The README's `Backend` struct type: `Hostname string recli:"id"`,
`Port int default:"2019"`, `BackoffIntervals []int default:"10,20"`,
and the skipped `IPAddressCached net.IP recli:"-" json:"-"`. -/
def backendT : CType := .structT
  [("Hostname", [("recli", "id")], false, .prim .string),
   ("Port", [("default", "2019")], false, .prim (.int .i)),
   ("BackoffIntervals", [("default", "10,20")], false, .sliceT (.prim (.int .i))),
   ("IPAddressCached", [("recli", "-"), ("json", "-")], false, .otherT .slice)]

/-- A `Backend` value with the given hostname and port. -/
def backendV (h : String) (p : Int) : CVal :=
  .structV [.primV (.stringV h), .primV (.intV .i p), .sliceV [], .otherV]

/-- The README's `Config` struct type. -/
def configT : CType := .structT
  [("Address", [("usage", "Address on which to listen")], false, .prim .string),
   ("AuthMode", [], false, .prim (.enum authModeCodec)),
   ("ThreadingOptions", [], false, .structT [("MaxThreads", [], false, .prim (.int .i))]),
   ("Backends", [], false, .sliceT backendT),
   ("EnvVars", [], false, .mapT .string .string)]

/-- The README's sample `Config` value. -/
def configV : CVal := .structV
  [.primV (.stringV "http://website.com"),
   .primV (.enumV authModeCodec 0),
   .structV [.primV (.intV .i 10)],
   .sliceV [backendV "backend1.com" 1010, backendV "backend2.com" 2020],
   .mapV [(.stringV "CC", .stringV "/usr/bin/gcc")]]

/-- A two-element `Backends` collection whose id fields collide. -/
def dupIdT : CType := .structT [("Backends", [], false, .sliceT backendT)]

/-- The value with the colliding ids. -/
def dupIdV : CVal := .structV [.sliceV [backendV "dup" 1, backendV "dup" 2]]

/-- A struct with a map field whose value kind is a struct. -/
def mapStructT : CType :=
  .structT [("EnvVars", [], false, .mapT .string (.other .struct'))]

/-- A value of `mapStructT` with one entry. -/
def mapStructV : CVal := .structV [.mapV [(.stringV "k", .nonPrim .struct')]]

/-- The map captured by `mapStructV`'s field. -/
def mapStructMap : GoMap := ⟨.string, .other .struct', [(.stringV "k", .nonPrim .struct')]⟩

/-- The `EnvVars`-style string→string map of the README. -/
def envVarsMap : GoMap := ⟨.string, .string, [(.stringV "CC", .stringV "/usr/bin/gcc")]⟩

/-- The cyclic test graph of `utils_test.go`: node 0 is
`DefaultStruct{A string default:"outer"; B []int default:"10,20"; C Inner}`,
node 1 is `Inner{A string default:"inner"; B *DefaultStruct}`, with
`x.C.B = x` closing the cycle (the inline `C Inner` occupies its own
address, modelled as node 1). -/
def testHeap : Heap 2 := fun a =>
  if a = ⟨0, Nat.zero_lt_two⟩ then
    [⟨.prim (.stringV ""), "outer"⟩, ⟨.intSlice [], "10,20"⟩,
     ⟨.structRef ⟨1, Nat.one_lt_two⟩, ""⟩]
  else
    [⟨.prim (.stringV ""), "inner"⟩, ⟨.structRef ⟨0, Nat.zero_lt_two⟩, ""⟩]

/-- The README `Backend` member-struct descriptor for the flag-based
`add`. -/
def backendMember : List AddField :=
  [⟨"Hostname", "", .primT .string⟩,
   ⟨"Port", "2019", .primT (.int .i)⟩,
   ⟨"BackoffIntervals", "10,20", .intSliceT⟩]

/-- A parsed-flag environment with only `-hostname=testback.end` set. -/
def hostnameCtx : FlagCtx :=
  ⟨1, (· = "hostname"), (fun _ => "testback.end"), (fun _ => []), (fun _ => [])⟩

/-- A parsed-flag environment with only `-backoff-intervals=30` set. -/
def backoffCtx : FlagCtx :=
  ⟨1, (· = "backoff-intervals"), (fun _ => ""), (fun _ => [30]), (fun _ => [])⟩

/-- A parsed-flag environment with no flags set. -/
def emptyCtx : FlagCtx :=
  ⟨0, (fun _ => false), (fun _ => ""), (fun _ => []), (fun _ => [])⟩

/-!  ### The field-name conversion claimed by the specification (C10)
and the amended description of `toLowerDashCase` -/

/-- Index at which the trailing run of capitals starts (equals the
length when there is no trailing capital). -/
def trailingCapsStart (cs : List Char) : Nat :=
  cs.length - (cs.reverse.takeWhile Char.isUpper).length

/-- The conversion described by the claim: lowercase everything, insert
a hyphen wherever an uppercase rune follows a non-uppercase rune, but
never before the trailing run of capitals. -/
def claimLowerDash (s : String) : String :=
  let cs := s.data
  ⟨(List.range cs.length).flatMap fun k =>
    let r := cs.getD k ' '
    let dash : Bool :=
      0 < k ∧ r.isUpper ∧ ¬(cs.getD (k - 1) ' ').isUpper ∧ k ≠ trailingCapsStart cs
    (if dash then ['-'] else []) ++ [r.toLower]⟩

/-- The loop of the amended description, for single-byte (ASCII) names:
position `k` counts runes, `n` is the rune count, `p` the previous rune;
a hyphen goes before an uppercase rune that follows a non-uppercase rune
unless it is the final rune. -/
def tldSpecAux (n : Nat) : Option Char → Nat → List Char → List Char
  | _, _, [] => []
  | none, k, r :: rest => r.toLower :: tldSpecAux n (some r) (k + 1) rest
  | some p, k, r :: rest =>
    (if r.isUpper then
       if ¬p.isUpper ∧ k + 1 ≠ n then ['-', r.toLower] else [r.toLower]
     else [r]) ++ tldSpecAux n (some r) (k + 1) rest

/-- The amended conversion: as the claim, except that the hyphen is
omitted only when the uppercase rune is the *final* rune of the name. -/
def toLowerDashSpec (s : String) : String :=
  ⟨tldSpecAux s.data.length none 0 s.data⟩

/-!  ### Predicates for the scalar set/get round trip -/

/-- If the value is an enum-like text-codec value, its codec round-trips:
unmarshalling a symbol and marshalling the result reproduces the symbol
(as `AuthMode`'s does). -/
def CodecRT (v : GoValue) : Prop :=
  ∀ c n, v.val = .enumV c n → ∀ s m, c.unmarshal s = .ok m → c.marshal m = .ok s

/-- What `get` must return after `set(x)` succeeded on `v`: the value
`x` parses to under `v`'s scalar kind — textually, `x` itself for
strings and for round-tripping text-codec values. -/
def RoundTripRes (v : GoValue) (x : String) (p : Prim) : Prop :=
  match v.val with
  | .boolV _ => ∃ cv, parseBool x = .ok cv ∧ p = .b cv
  | .intV _ _ => ∃ cv, parseInt x = .ok cv ∧ p = .i cv
  | .floatV _ _ => ∃ cv, parseFloat x = .ok cv ∧ p = .f cv
  | .stringV _ => p = .s x
  | .enumV _ _ => p = .s x
  | _ => False

/-- The child names of the named top-level node of a construction
result. -/
def subNamesOf (r : Outcome (List Cmd)) (name : String) : Option (List String) :=
  match r with
  | .ok cs => (cs.find? (fun c => c.name = name)).map (fun c => c.sub.map Cmd.name)
  | _ => none

/-- Everything a completed `setDefaults` call guarantees, relative to
its input heap `heap`, node `addr` and incoming visited set `s0`:
the visited set only grows and keeps the node; the heap keeps its
skeleton and previously-visited nodes are untouched; the application
trace is duplicate-free, mentions only newly visited nodes, and for
each newly visited node contains exactly its leaf-defaulted fields;
newly visited nodes are reachable and their struct successors are
visited. -/
structure GoOut {N : Nat} (heap : Heap N) (addr : Fin N) (s0 : Finset (Fin N))
    (h' : Heap N) (s' : Finset (Fin N)) (apps : List (Fin N × Nat)) : Prop where
  grow : s0 ⊆ s'
  self_mem : addr ∈ s'
  skel : SkelEq heap h'
  untouched : ∀ b ∈ s0, h' b = heap b
  nodup : apps.Nodup
  mem : ∀ p ∈ apps, p.1 ∉ s0 ∧ p.1 ∈ s'
  node : ∀ b, b ∈ s' → b ∉ s0 →
    (∀ i, ((b, i) ∈ apps ↔ DefaultedIdx heap b i)) ∧
    (∀ c ∈ structSuccs (heap b), c ∈ s') ∧ Reaches heap addr b

/-- The corresponding invariant for the field loop, processing the
fields of `addr` (already in `seen`) from index `i` on: the trace's
entries for `addr` itself are exactly its leaf-defaulted fields at
indices `≥ i`, and the struct successors listed in the remaining fields
all end up visited. -/
structure FieldsOut {N : Nat} (heap : Heap N) (addr : Fin N) (seen : Finset (Fin N))
    (i : Nat) (flds : List (DField N)) (h' : Heap N) (s' : Finset (Fin N))
    (apps : List (Fin N × Nat)) : Prop where
  grow : seen ⊆ s'
  skel : SkelEq heap h'
  untouched : ∀ b ∈ seen, b ≠ addr → h' b = heap b
  nodup : apps.Nodup
  mem : ∀ p ∈ apps, p.1 = addr ∨ (p.1 ∉ seen ∧ p.1 ∈ s')
  own : ∀ j, ((addr, j) ∈ apps ↔ (i ≤ j ∧ DefaultedIdx heap addr j))
  node : ∀ b, b ∈ s' → b ∉ seen →
    (∀ j, ((b, j) ∈ apps ↔ DefaultedIdx heap b j)) ∧
    (∀ c ∈ structSuccs (heap b), c ∈ s') ∧ Reaches heap addr b
  succs : ∀ c ∈ structSuccs flds, c ∈ s'

/-!  ## Helper lemmas -/

/-- `simplifyKind` fixes the non-integer kinds (sample evaluations used
as rewrite rules). -/
theorem simplifyKind_bool : simplifyKind .bool = .bool := rfl

/-- `simplifyKind` fixes `int`. -/
theorem simplifyKind_int : simplifyKind .int = .int := rfl

/-- `simplifyKind` fixes `float32`. -/
theorem simplifyKind_float32 : simplifyKind .float32 = .float32 := rfl

/-- `simplifyKind` fixes `float64`. -/
theorem simplifyKind_float64 : simplifyKind .float64 = .float64 := rfl

/-- `simplifyKind` fixes `string`. -/
theorem simplifyKind_string : simplifyKind .string = .string := rfl

/-- `simplifyKind` fixes `invalid`. -/
theorem simplifyKind_invalid : simplifyKind .invalid = .invalid := rfl

/-- Every signed width simplifies to the `int` kind. -/
theorem simplifyKind_intW (w : IntW) : simplifyKind w.kind = .int := by
  cases w <;> rfl

/-- Every unsigned width simplifies to the `int` kind — the collapse that
sends unsigned values into the signed accessors. -/
theorem simplifyKind_uintW (w : UintW) : simplifyKind w.kind = .int := by
  cases w <;> rfl

/-- The README codec round-trips on its symbolic names. -/
theorem authModeCodec_roundtrip :
    ∀ s m, authModeCodec.unmarshal s = .ok m → authModeCodec.marshal m = .ok s := by
  intro s m h
  by_cases h1 : s = "ldap"
  · subst h1
    rw [show authModeCodec.unmarshal "ldap" = .ok 1 from rfl] at h
    cases h
    rfl
  · by_cases h2 : s = "static"
    · subst h2
      rw [show authModeCodec.unmarshal "static" = .ok 0 from rfl] at h
      cases h
      rfl
    · have hu : authModeCodec.unmarshal s = .error ("unknown value: " ++ s) := by
        simp only [authModeCodec]
        rw [if_neg h1, if_neg h2]
      rw [hu] at h
      cases h

/-!  ## Claim C1 — map `get` with an absent key -/

/-- C1, counterexample: on the README's `EnvVars` map, `get missing`
does *not* print a not-found value through the configured printer — it
aborts with the `unsupported kind: invalid` error that
`getPrimitiveValue` produces on the zero `reflect.Value` returned by
`MapIndex` for an absent key (`.err` means the leaf returned the error
and nothing reached the printer). -/
theorem c1_counterexample :
    mapGetAction envVarsMap "missing" = .err "unsupported kind: invalid" := rfl

/-- C1, amended: for every map and every key text that parses to a key
absent from the entries, the `get` leaf aborts with the
`unsupported kind: invalid` error; no value is printed. -/
theorem c1_map_get_absent_errors (m : GoMap) (arg : String) (kv : GoValue)
    (hparse : stringToPrimitiveValue arg m.keyType = .ok kv)
    (habsent : ∀ p ∈ m.entries, p.1.goEq kv.val = false) :
    mapGetAction m arg = .err "unsupported kind: invalid" := by
  have hfind : m.entries.find? (fun p => p.1.goEq kv.val) = none :=
    List.find?_eq_none.mpr (fun p hp => by simp [habsent p hp])
  simp only [mapGetAction, hparse, GoMap.mapIndex, hfind]
  rfl

/-- Witness for `c1_map_get_absent_errors` at the README map and the
absent key `missing`. -/
theorem c1_witness :
    stringToPrimitiveValue "missing" envVarsMap.keyType = .ok ⟨true, .stringV "missing"⟩ ∧
    (∀ p ∈ envVarsMap.entries, p.1.goEq (GoVal.stringV "missing") = false) ∧
    mapGetAction envVarsMap "missing" = .err "unsupported kind: invalid" :=
  ⟨rfl, by decide,
    c1_map_get_absent_errors envVarsMap "missing" ⟨true, .stringV "missing"⟩ rfl (by decide)⟩

/-!  ## Claim C4 — unsigned integer fields panic -/

/-- C4, confirmed: a visible unsigned-integer field (any width) without a
text codec has its `get` leaf panic in `reflect.Value.Int` (because
`simplifyKind` collapsed its kind into the signed case), and its `set`
leaf panic in `reflect.Value.OverflowInt` whenever the argument parses
as an integer (an unparsable argument still returns the parse error
first). -/
theorem c4_uint_get_set_panic (w : UintW) (n : Int) :
    getPrimitiveValue ⟨true, .uintV w n⟩ =
      .panic "reflect: call of reflect.Value.Int on non-int Value" ∧
    ∀ (x : String) (cv : Int), parseInt x = .ok cv →
      setPrimitiveValueFromString ⟨true, .uintV w n⟩ x =
        .panic "reflect: call of reflect.Value.OverflowInt on non-int Value" := by
  constructor
  · simp only [getPrimitiveValue, GoValue.kind, GoVal.kind, simplifyKind_uintW]
    rfl
  · intro x cv h
    simp only [setPrimitiveValueFromString, GoValue.kind, GoVal.kind, simplifyKind_uintW, h]
    rfl

/-- Witness for `c4_uint_get_set_panic` at a `uint8` field and the
argument `5`. -/
theorem c4_witness :
    parseInt "5" = .ok 5 ∧
    getPrimitiveValue ⟨true, .uintV .u8 0⟩ =
      .panic "reflect: call of reflect.Value.Int on non-int Value" ∧
    setPrimitiveValueFromString ⟨true, .uintV .u8 0⟩ "5" =
      .panic "reflect: call of reflect.Value.OverflowInt on non-int Value" :=
  ⟨rfl, (c4_uint_get_set_panic .u8 0).1, (c4_uint_get_set_panic .u8 0).2 "5" 5 rfl⟩

/-!  ## Claim C5 — flag-based `add` -/

/-- C5: setting the multi-value flag of a scalar-element slice field in
the flag-based `add` panics — the source calls `fieldValue.Elem()`
(`reflect.Value.Elem`) on a slice `Value` (recli.go:391) — instead of
storing the parsed values; the scalar-flag path (second conjunct,
the README's `add -hostname=testback.end`) works as specified, with
unset fields defaulted. -/
theorem c5_slice_flag_panics :
    addAction toLowerDashCase backendMember backoffCtx [] =
      .panic "reflect: call of reflect.Value.Elem on slice Value" ∧
    addAction toLowerDashCase backendMember hostnameCtx [] =
      .ok [[⟨.prim (.stringV "testback.end"), ""⟩,
            ⟨.prim (.intV .i 2019), "2019"⟩,
            ⟨.intSlice [10, 20], "10,20"⟩]] :=
  ⟨rfl, rfl⟩

/-!  ## Claim C9 — `add` with zero flags -/

/-- C9, confirmed: the flag-based `add` rejects an invocation with zero
flags set with the `no properties specified` error, before any element
is constructed or appended (the collection argument is untouched: the
error return carries no new collection). -/
theorem c9_add_zero_flags_error (conv : String → String) (members : List AddField)
    (ctx : FlagCtx) (coll : List (List (DField 1))) (h : ctx.numFlags = 0) :
    addAction conv members ctx coll = .err "no properties specified" := by
  simp [addAction, h]

/-- Witness for `c9_add_zero_flags_error` at the README member struct
and an empty flag set. -/
theorem c9_witness :
    emptyCtx.numFlags = 0 ∧
    addAction toLowerDashCase backendMember emptyCtx [] = .err "no properties specified" :=
  ⟨rfl, c9_add_zero_flags_error toLowerDashCase backendMember emptyCtx [] rfl⟩

/-!  ## Claim C8 — text-codec precedence -/

/-- C8, confirmed: for an addressable value implementing both text-codec
directions over a numeric underlying kind, `get` prints the marshalled
symbolic text (never the number) and `set` delegates to unmarshal,
surfacing its error verbatim; concretely for the README's `AuthMode`,
`set ldap` stores the numeric 1 yet `get` prints `ldap`, and
`set bogus` fails with the codec's own `unknown value: bogus`. -/
theorem c8_text_codec_precedence :
    (∀ (c : TextCodec) (n : Int),
      getPrimitiveValue ⟨true, .enumV c n⟩ =
        match c.marshal n with
        | .ok s => .ok (.s s)
        | .error e => .err e) ∧
    (∀ (c : TextCodec) (n : Int) (x : String),
      setPrimitiveValueFromString ⟨true, .enumV c n⟩ x =
        match c.unmarshal x with
        | .ok m => .ok ⟨true, .enumV c m⟩
        | .error e => .err e) ∧
    setPrimitiveValueFromString ⟨true, .enumV authModeCodec 0⟩ "ldap" =
      .ok ⟨true, .enumV authModeCodec 1⟩ ∧
    (setPrimitiveValueFromString ⟨true, .enumV authModeCodec 0⟩ "ldap").map
        getPrimitiveValue = .ok (.ok (.s "ldap")) ∧
    setPrimitiveValueFromString ⟨true, .enumV authModeCodec 0⟩ "bogus" =
      .err "unknown value: bogus" := by
  refine ⟨fun c n => ?_, fun c n x => ?_, rfl, rfl, rfl⟩
  · rcases hm : c.marshal n with s | e <;> simp [getPrimitiveValue, hm]
  · rcases hu : c.unmarshal x with m | e <;> simp [setPrimitiveValueFromString, hu]

/-!  ## Claim C6 — map fields with non-scalar kinds -/

/-- C6, counterexample: `Construct` on a struct whose map field has
struct-kind values *succeeds* (the claim says it fails with a wrapped
unsupported-kind error): `makeMapCommands` is returned for every map
field without any key/value-kind check. -/
theorem c6_counterexample :
    ConstructM 3 defaultCConfig mapStructT mapStructV =
      .ok [Cmd.mk "env-vars" "" "PROPERTIES" makeMapCommandsM, dumpJsonCmd] := rfl

/-- C6, amended: tree construction accepts a map field of *any* key and
value kind (returning the four map leaves unconditionally); the
unsupported-kind error surfaces only when a leaf is invoked — here
`dump` and `get k` on a map with struct values fail with
`unsupported kind: struct` at invocation time. -/
theorem c6_map_unsupported_at_invocation :
    (∀ (fuel : Nat) (cfg : CConfig) (k v : SType) (x : CVal),
      getCommandsForValueGo (fuel + 1) cfg (.mapT k v) x = .ok makeMapCommandsM) ∧
    mapDumpAction mapStructMap = .err "unsupported kind: struct" ∧
    mapGetAction mapStructMap "k" = .err "unsupported kind: struct" := by
  refine ⟨fun fuel cfg k v x => ?_, rfl, rfl⟩
  cases x <;> rfl

/-!  ## Claim C7 — sibling-name uniqueness -/

/-- C7, counterexample: with two collection elements whose id-tagged
field renders to the same key, `Construct` succeeds and produces two
sibling element nodes both named `dup` — sibling names are not unique
(and not deduplicated). -/
theorem c7_counterexample :
    (ConstructM 9 defaultCConfig dupIdT dupIdV).isOk = true ∧
    subNamesOf (ConstructM 9 defaultCConfig dupIdT dupIdV) "backends" =
      some ["dup", "dup", "list", "add", "add-json"] ∧
    resultNamesUnique (ConstructM 9 defaultCConfig dupIdT dupIdV) = false :=
  ⟨rfl, rfl, rfl⟩

/-- C7, amended: sibling names are the keyer renderings in order and are
not deduplicated, so uniqueness holds only when id renderings are
distinct and converted field names collide neither with each other nor
with the reserved leaf names; in particular the README configuration
(distinct hostnames) yields unique sibling names at every level,
including the per-level `dump-json` leaf. -/
theorem c7_readme_names_unique :
    (ConstructM 9 defaultCConfig configT configV).isOk = true ∧
    resultNamesUnique (ConstructM 9 defaultCConfig configT configV) = true :=
  ⟨rfl, rfl⟩

/-!  ## Claim C2 — the scalar set/get round trip -/

/-- C2, counterexample: `uint8` is an integer width, yet on a `uint8`
field the `set` leaf (with a parsable value) and the `get` leaf both
panic instead of round-tripping without error — the unsigned kinds are
not covered by the claimed any-width round trip. -/
theorem c2_counterexample :
    setPrimitiveValueFromString ⟨true, .uintV .u8 0⟩ "5" =
      .panic "reflect: call of reflect.Value.OverflowInt on non-int Value" ∧
    getPrimitiveValue ⟨true, .uintV .u8 0⟩ =
      .panic "reflect: call of reflect.Value.Int on non-int Value" :=
  ⟨rfl, rfl⟩

/-- C2, amended: for every scalar value on which `set` *succeeds* — i.e.
booleans, signed integers of any width, floats, strings, and
round-tripping text-codec scalars, but not the unsigned kinds, whose
leaves panic — `get` immediately afterwards succeeds and returns the
value `set` stored: textually `x` itself for strings and text-codec
scalars, and the parse of `x` for the other kinds. -/
theorem c2_set_get_roundtrip (v v' : GoValue) (x : String)
    (hrt : CodecRT v) (hset : setPrimitiveValueFromString v x = .ok v') :
    ∃ p, getPrimitiveValue v' = .ok p ∧ RoundTripRes v x p := by
  obtain ⟨ca, gv⟩ := v
  cases ca <;> cases gv
  case false.invalid =>
    simp [setPrimitiveValueFromString, GoValue.kind, GoVal.kind, simplifyKind_invalid] at hset
  case false.boolV b =>
    rcases hpb : parseBool x with e | cv <;>
      simp [setPrimitiveValueFromString, GoValue.kind, GoVal.kind, simplifyKind_bool,
        hpb, GoValue.setBool] at hset
  case false.intV w n =>
    rcases hpi : parseInt x with e | cv <;>
      simp only [setPrimitiveValueFromString, GoValue.kind, GoVal.kind, simplifyKind_intW,
        hpi, GoValue.overflowInt] at hset
    · cases hset
    · rcases hd : decide (cv < -(2 ^ (w.bits - 1)) ∨ 2 ^ (w.bits - 1) ≤ cv) <;>
        rw [hd] at hset <;> simp [GoValue.setInt] at hset
  case false.uintV w n =>
    rcases hpi : parseInt x with e | cv <;>
      simp [setPrimitiveValueFromString, GoValue.kind, GoVal.kind, simplifyKind_uintW,
        hpi, GoValue.overflowInt] at hset
  case false.floatV is32 q =>
    cases is32 <;> rcases hpf : parseFloat x with e | cv <;>
      simp [setPrimitiveValueFromString, GoValue.kind, GoVal.kind, simplifyKind_float32,
        simplifyKind_float64, hpf, GoValue.setFloat] at hset
  case false.stringV s =>
    simp [setPrimitiveValueFromString, GoValue.kind, GoVal.kind, simplifyKind_string,
      GoValue.setString] at hset
  case false.enumV c n =>
    rcases hpi : parseInt x with e | cv <;>
      simp only [setPrimitiveValueFromString, GoValue.kind, GoVal.kind, simplifyKind_int,
        hpi, GoValue.overflowInt] at hset
    · cases hset
    · rcases hd : decide (cv < -(2 ^ 63) ∨ 2 ^ 63 ≤ cv) <;>
        rw [hd] at hset <;> simp [GoValue.setInt] at hset
  case false.nonPrim k =>
    rcases hsk : simplifyKind k <;>
      simp only [setPrimitiveValueFromString, GoValue.kind, GoVal.kind, hsk] at hset <;>
      try cases hset
    · rcases hpb : parseBool x with e | cv <;>
        simp [hpb, GoValue.setBool] at hset
    · rcases hpi : parseInt x with e | cv <;>
        simp [hpi, GoValue.overflowInt] at hset
    · rcases hpf : parseFloat x with e | cv <;>
        simp [hpf, GoValue.setFloat] at hset
    · rcases hpf : parseFloat x with e | cv <;>
        simp [hpf, GoValue.setFloat] at hset
  case true.invalid =>
    simp [setPrimitiveValueFromString, GoValue.kind, GoVal.kind, simplifyKind_invalid] at hset
  case true.boolV b =>
    rcases hpb : parseBool x with e | cv <;>
      simp [setPrimitiveValueFromString, GoValue.kind, GoVal.kind, simplifyKind_bool,
        hpb, GoValue.setBool] at hset
    subst hset
    exact ⟨.b cv, rfl, ⟨cv, hpb, rfl⟩⟩
  case true.intV w n =>
    rcases hpi : parseInt x with e | cv <;>
      simp only [setPrimitiveValueFromString, GoValue.kind, GoVal.kind, simplifyKind_intW,
        hpi, GoValue.overflowInt] at hset
    · cases hset
    · rcases hd : decide (cv < -(2 ^ (w.bits - 1)) ∨ 2 ^ (w.bits - 1) ≤ cv) <;>
        rw [hd] at hset <;> simp [GoValue.setInt] at hset
      subst hset
      refine ⟨.i cv, ?_, ⟨cv, hpi, rfl⟩⟩
      simp only [getPrimitiveValue, GoValue.kind, GoVal.kind, simplifyKind_intW]
      rfl
  case true.uintV w n =>
    rcases hpi : parseInt x with e | cv <;>
      simp [setPrimitiveValueFromString, GoValue.kind, GoVal.kind, simplifyKind_uintW,
        hpi, GoValue.overflowInt] at hset
  case true.floatV is32 q =>
    cases is32 <;> rcases hpf : parseFloat x with e | cv <;>
      simp [setPrimitiveValueFromString, GoValue.kind, GoVal.kind, simplifyKind_float32,
        simplifyKind_float64, hpf, GoValue.setFloat] at hset
    · subst hset
      exact ⟨.f cv, rfl, ⟨cv, hpf, rfl⟩⟩
    · subst hset
      exact ⟨.f cv, rfl, ⟨cv, hpf, rfl⟩⟩
  case true.stringV s =>
    simp [setPrimitiveValueFromString, GoValue.kind, GoVal.kind, simplifyKind_string,
      GoValue.setString] at hset
    subst hset
    exact ⟨.s x, rfl, rfl⟩
  case true.enumV c n =>
    rcases hu : c.unmarshal x with e | m <;>
      simp only [setPrimitiveValueFromString, hu] at hset
    · cases hset
    · cases hset
      have hm : c.marshal m = .ok x := hrt c n rfl x m hu
      refine ⟨.s x, ?_, rfl⟩
      simp only [getPrimitiveValue, hm]
  case true.nonPrim k =>
    rcases hsk : simplifyKind k <;>
      simp only [setPrimitiveValueFromString, GoValue.kind, GoVal.kind, hsk] at hset <;>
      try cases hset
    · rcases hpb : parseBool x with e | cv <;>
        simp [hpb, GoValue.setBool] at hset
    · rcases hpi : parseInt x with e | cv <;>
        simp [hpi, GoValue.overflowInt] at hset
    · rcases hpf : parseFloat x with e | cv <;>
        simp [hpf, GoValue.setFloat] at hset
    · rcases hpf : parseFloat x with e | cv <;>
        simp [hpf, GoValue.setFloat] at hset

/-- Witness for `c2_set_get_roundtrip` at the README's `AuthMode` field
and the symbol `ldap`. -/
theorem c2_witness :
    CodecRT ⟨true, .enumV authModeCodec 0⟩ ∧
    setPrimitiveValueFromString ⟨true, .enumV authModeCodec 0⟩ "ldap" =
      .ok ⟨true, .enumV authModeCodec 1⟩ ∧
    ∃ p, getPrimitiveValue ⟨true, .enumV authModeCodec 1⟩ = .ok p ∧
      RoundTripRes ⟨true, .enumV authModeCodec 0⟩ "ldap" p := by
  have hrt : CodecRT ⟨true, .enumV authModeCodec 0⟩ := by
    intro c n h
    cases h
    exact authModeCodec_roundtrip
  exact ⟨hrt, rfl,
    c2_set_get_roundtrip ⟨true, .enumV authModeCodec 0⟩
      ⟨true, .enumV authModeCodec 1⟩ "ldap" hrt rfl⟩

/-!  ## Claim C10 — the default field-name conversion -/

/-- C10, counterexample: on `SizeKB` the code yields `size-kb` — the
hyphen *is* inserted before the trailing capital run `KB` — while the
claimed conversion (no separator before a trailing run of capitals)
yields `sizekb`.  The code's suffix exception applies only when the
uppercase rune is the final rune. -/
theorem c10_counterexample :
    toLowerDashCase "SizeKB" = "size-kb" ∧
    claimLowerDash "SizeKB" = "sizekb" ∧
    toLowerDashCase "SizeKB" ≠ claimLowerDash "SizeKB" :=
  ⟨rfl, rfl, by decide⟩

/-- On all-ASCII text the byte length is the rune count. -/
theorem byteLen_ascii :
    ∀ (cs : List Char), (∀ c ∈ cs, c.utf8Size = 1) → byteLen cs = cs.length := by
  intro cs h
  induction cs with
  | nil => rfl
  | cons c rest ih =>
    have hc : c.utf8Size = 1 := h c (by simp)
    have hr := ih (fun x hx => h x (by simp [hx]))
    show c.utf8Size + byteLen rest = rest.length + 1
    rw [hc, hr]
    omega

/-- The conversion loop agrees with the amended description's loop on
ASCII input, position by position. -/
theorem tldAux_eq_specAux (n : Nat) :
    ∀ (cs : List Char) (k : Nat) (p : Char), (∀ c ∈ cs, c.utf8Size = 1) →
      tldAux n cs (k + 1) p.isUpper = tldSpecAux n (some p) (k + 1) cs := by
  intro cs
  induction cs with
  | nil => intro k p _; rfl
  | cons r rest ih =>
    intro k p h
    have hr : r.utf8Size = 1 := h r (by simp)
    have hrest : ∀ c ∈ rest, c.utf8Size = 1 := fun c hc => h c (by simp [hc])
    have htail := ih (k + 1) r hrest
    simp only [tldAux, tldSpecAux, hr]
    by_cases hup : r.isUpper
    · rw [hup] at htail
      by_cases hpu : p.isUpper
      · simp [hup, hpu, htail]
      · simp [hup, hpu, htail]
        split <;> split <;> first | rfl | omega
    · have hup' : r.isUpper = false := by simpa using hup
      rw [hup'] at htail
      simp [hup', htail]

/-- C10, amended: for ASCII names, `toLowerDashCase` lowercases, inserts
a hyphen at every boundary where an uppercase rune follows a
non-uppercase rune, and omits the hyphen only when that uppercase rune
is the *final* rune of the name (a single trailing capital); a trailing
run of two or more capitals still receives a hyphen before its first
capital. -/
theorem c10_single_trailing_capital (s : String)
    (h : ∀ c ∈ s.data, c.utf8Size = 1) :
    toLowerDashCase s = toLowerDashSpec s := by
  obtain ⟨cs⟩ := s
  have hdata : (String.mk cs).data = cs := rfl
  rw [hdata] at h
  show (⟨tldAux (byteLen cs) cs 0 false⟩ : String) = ⟨tldSpecAux cs.length none 0 cs⟩
  rw [byteLen_ascii cs h]
  cases cs with
  | nil => rfl
  | cons r rest =>
    have hr : r.utf8Size = 1 := h r (by simp)
    have hrest : ∀ c ∈ rest, c.utf8Size = 1 := fun c hc => h c (by simp [hc])
    have htail := tldAux_eq_specAux (rest.length + 1) rest 0 r hrest
    simp only [Nat.zero_add] at htail
    simp only [tldAux, tldSpecAux, hr, if_pos rfl, List.length_cons]
    simp [htail]

/-- Witness for `c10_single_trailing_capital` at the name `SizeKB`. -/
theorem c10_witness :
    (∀ c ∈ "SizeKB".data, c.utf8Size = 1) ∧
    toLowerDashCase "SizeKB" = toLowerDashSpec "SizeKB" :=
  ⟨by decide, c10_single_trailing_capital "SizeKB" (by decide)⟩

/-!  ## Claim C3 — the defaults engine

Invariant lemmas about `setDefaultsGo` / `setDefaultsFields`, leading to
`c3_setDefaults_cycle_safe`: with fuel `N + 2` the run never exhausts
fuel (the model's rendering of Go-level termination), and on success the
application trace lists each leaf-defaulted field of each reachable node
exactly once, however many paths reach the node. -/

/-- `SkelEq` is reflexive. -/
theorem skelEq_refl {N : Nat} (h : Heap N) : SkelEq h h := fun _ => rfl

/-- `SkelEq` is transitive. -/
theorem skelEq_trans {N : Nat} {h₁ h₂ h₃ : Heap N}
    (a : SkelEq h₁ h₂) (b : SkelEq h₂ h₃) : SkelEq h₁ h₃ :=
  fun x => (a x).trans (b x)

/-- Rewriting an index with the element it already holds is the
identity. -/
theorem list_set_self {α : Type} :
    ∀ (l : List α) (i : Nat) (x : α), l[i]? = some x → l.set i x = l := by
  intro l
  induction l with
  | nil => intro i x h; simp at h
  | cons a rest ih =>
    intro i x h
    cases i with
    | zero =>
      simp only [List.getElem?_cons_zero, Option.some.injEq] at h
      simp [h]
    | succ n =>
      simp only [List.getElem?_cons_succ] at h
      simp [ih n x h]

/-- An update writing a field with the same skeleton preserves `SkelEq`. -/
theorem skelEq_update {N : Nat} (heap : Heap N) (a : Fin N) (i : Nat)
    {f fNew : DField N} (hget : (heap a)[i]? = some f)
    (hsk : fNew.skel = f.skel) : SkelEq heap (heapUpdate heap a i fNew) := by
  intro b
  unfold heapUpdate
  by_cases hb : b = a
  · subst hb
    rw [if_pos rfl, List.map_set]
    have hmap : ((heap b).map DField.skel)[i]? = some fNew.skel := by
      rw [List.getElem?_map, hget, hsk]
      rfl
    rw [list_set_self _ i _ hmap]
  · rw [if_neg hb]

/-- Membership in `structSuccs` through the skeleton. -/
theorem structSuccs_skelEq {N : Nat} {h h' : Heap N} (hs : SkelEq h h') (a : Fin N) :
    structSuccs (h a) = structSuccs (h' a) := by
  have key : ∀ (l : List (DField N)),
      structSuccs l = (l.map DField.skel).filterMap Prod.fst := by
    intro l
    rw [List.filterMap_map]
    rfl
  rw [key, key, hs a]

/-- `DefaultedIdx` only depends on the skeleton. -/
theorem defaultedIdx_skelEq {N : Nat} {h h' : Heap N} (hs : SkelEq h h')
    (a : Fin N) (i : Nat) : DefaultedIdx h a i ↔ DefaultedIdx h' a i := by
  have key : ∀ {g g' : Heap N}, SkelEq g g' → DefaultedIdx g a i → DefaultedIdx g' a i := by
    intro g g' hgg ⟨f, hget, hld⟩
    have hmap : ((g a).map DField.skel)[i]? = ((g' a).map DField.skel)[i]? := by
      rw [hgg a]
    rw [List.getElem?_map, List.getElem?_map, hget] at hmap
    rcases hget' : (g' a)[i]? with _ | f'
    · rw [hget'] at hmap
      cases hmap
    · rw [hget'] at hmap
      have hskel : DField.skel f = DField.skel f' := by
        simpa using hmap
      refine ⟨f', hget', ?_⟩
      have : f.isLeafDefault = f'.isLeafDefault := congrArg (fun t => t.2.1) hskel
      rw [← this, hld]
  exact ⟨key hs, key (fun x => (hs x).symm)⟩

/-- `DStep` only depends on the skeleton. -/
theorem dStep_skelEq {N : Nat} {h h' : Heap N} (hs : SkelEq h h') (a b : Fin N) :
    DStep h a b ↔ DStep h' a b := by
  unfold DStep
  rw [structSuccs_skelEq hs a]

/-- Reachability only depends on the skeleton. -/
theorem reaches_skelEq {N : Nat} {h h' : Heap N} (hs : SkelEq h h') (a b : Fin N) :
    Reaches h a b ↔ Reaches h' a b := by
  constructor
  · exact Relation.ReflTransGen.mono fun x y hxy => (dStep_skelEq hs x y).mp hxy
  · exact Relation.ReflTransGen.mono fun x y hxy => (dStep_skelEq hs x y).mpr hxy

/-- `heapUpdate` leaves other nodes alone. -/
theorem heapUpdate_other {N : Nat} (heap : Heap N) (a : Fin N) (i : Nat)
    (f : DField N) (b : Fin N) (hb : b ≠ a) : heapUpdate heap a i f b = heap b := by
  unfold heapUpdate
  rw [if_neg hb]

/-- `heapUpdate` at the node, beyond the updated index, drops the same. -/
theorem heapUpdate_drop {N : Nat} (heap : Heap N) (a : Fin N) (i : Nat)
    (f : DField N) : (heapUpdate heap a i f a).drop (i + 1) = (heap a).drop (i + 1) := by
  unfold heapUpdate
  rw [if_pos rfl, List.drop_set, if_pos (by omega)]

/-- Splitting a `drop` that yields a cons. -/
theorem drop_cons_inv {α : Type} {l : List α} {i : Nat} {f : α} {rest : List α}
    (h : l.drop i = f :: rest) : l[i]? = some f ∧ l.drop (i + 1) = rest := by
  constructor
  · have := List.getElem?_drop l i 0
    rw [h] at this
    simpa using this.symm
  · have := List.drop_drop 1 i l
    rw [h] at this
    simpa using this.symm

/-- A `drop` that yields nil has no elements beyond its start. -/
theorem drop_nil_getElem? {α : Type} {l : List α} {i : Nat}
    (h : l.drop i = []) (j : Nat) (hij : i ≤ j) : l[j]? = none := by
  have := List.getElem?_drop l i (j - i)
  rw [h] at this
  have hj : i + (j - i) = j := by omega
  rw [hj] at this
  simpa using this.symm

/-- A struct field witnesses a `structSuccs` membership. -/
theorem structSuccs_of_getElem? {N : Nat} {l : List (DField N)} {i : Nat}
    {f : DField N} (hget : l[i]? = some f) {a : Fin N}
    (hsh : f.shape.isStructRef = some a) : a ∈ structSuccs l := by
  exact List.mem_filterMap.mpr ⟨f, List.getElem?_mem hget, hsh⟩

/-- Skipping a field (no default tag, or no leaf default) extends the
loop invariant one position to the left. -/
theorem fieldsOut_skip {N : Nat} {heap : Heap N} {addr : Fin N}
    {seen : Finset (Fin N)} {i : Nat} {f : DField N} {rest : List (DField N)}
    {h' : Heap N} {s' : Finset (Fin N)} {apps : List (Fin N × Nat)}
    (F : FieldsOut heap addr seen (i + 1) rest h' s' apps)
    (hget : (heap addr)[i]? = some f)
    (hld : f.isLeafDefault = false)
    (hsh : f.shape.isStructRef = none) :
    FieldsOut heap addr seen i (f :: rest) h' s' apps where
  grow := F.grow
  skel := F.skel
  untouched := F.untouched
  nodup := F.nodup
  mem := F.mem
  own j := by
    rw [F.own j]
    constructor
    · rintro ⟨hij, hdef⟩
      exact ⟨by omega, hdef⟩
    · rintro ⟨hij, g, hget', hldg⟩
      rcases Nat.eq_or_lt_of_le hij with rfl | hlt
      · rw [hget] at hget'
        cases hget'
        rw [hld] at hldg
        cases hldg
      · exact ⟨hlt, g, hget', hldg⟩
  node := F.node
  succs c hc := by
    apply F.succs
    simpa [structSuccs, hsh] using hc

/-- Applying a leaf default at position `i` (possibly rewriting the
heap's payload there) extends the loop invariant, prepending the
application `(addr, i)`. -/
theorem fieldsOut_app {N : Nat} {heap heap2 : Heap N} {addr : Fin N}
    {seen : Finset (Fin N)} {i : Nat} {f : DField N} {rest : List (DField N)}
    {h' : Heap N} {s' : Finset (Fin N)} {a2 : List (Fin N × Nat)}
    (F : FieldsOut heap2 addr seen (i + 1) rest h' s' a2)
    (hsk : SkelEq heap heap2)
    (hoth : ∀ b, b ≠ addr → heap2 b = heap b)
    (hget : (heap addr)[i]? = some f)
    (hld : f.isLeafDefault = true)
    (haddr : addr ∈ seen)
    (hsh : f.shape.isStructRef = none) :
    FieldsOut heap addr seen i (f :: rest) h' s' ((addr, i) :: a2) where
  grow := F.grow
  skel := skelEq_trans hsk F.skel
  untouched b hb hba := (F.untouched b hb hba).trans (hoth b hba)
  nodup := by
    refine List.nodup_cons.mpr ⟨fun hin => ?_, F.nodup⟩
    have := (F.own i).mp hin
    omega
  mem p hp := by
    rcases List.mem_cons.mp hp with rfl | hp'
    · exact Or.inl rfl
    · exact F.mem p hp'
  own j := by
    constructor
    · intro hj
      rcases List.mem_cons.mp hj with heq | hj'
      · cases heq
        exact ⟨le_refl i, f, hget, hld⟩
      · obtain ⟨hij, hdef⟩ := (F.own j).mp hj'
        exact ⟨by omega, (defaultedIdx_skelEq hsk addr j).mpr hdef⟩
    · rintro ⟨hij, hdef⟩
      rcases Nat.eq_or_lt_of_le hij with rfl | hlt
      · exact List.mem_cons_self _ _
      · exact List.mem_cons_of_mem _
          ((F.own j).mpr ⟨hlt, (defaultedIdx_skelEq hsk addr j).mp hdef⟩)
  node b hb hnb := by
    have hba : b ≠ addr := fun h => hnb (h ▸ haddr)
    obtain ⟨iff2, succ2, reach2⟩ := F.node b hb hnb
    refine ⟨fun j => ?_, ?_, ?_⟩
    · rw [defaultedIdx_skelEq hsk b j, ← iff2 j]
      constructor
      · intro hj
        rcases List.mem_cons.mp hj with heq | hj'
        · cases heq
          exact absurd rfl hba
        · exact hj'
      · intro hj
        exact List.mem_cons_of_mem _ hj
    · intro c hc
      apply succ2 c
      rw [hoth b hba]
      exact hc
    · exact (reaches_skelEq hsk addr b).mpr reach2
  succs c hc := by
    apply F.succs
    simpa [structSuccs, hsh] using hc

/-- Recursing into a struct field at position `i` composes the callee's
guarantee with the remaining loop's invariant. -/
theorem fieldsOut_struct {N : Nat} {heap h1 : Heap N} {a addr : Fin N}
    {seen s1 : Finset (Fin N)} {i : Nat} {f : DField N} {rest : List (DField N)}
    {h' : Heap N} {s' : Finset (Fin N)} {a1 a2 : List (Fin N × Nat)}
    (G : GoOut heap a seen h1 s1 a1)
    (F : FieldsOut h1 addr s1 (i + 1) rest h' s' a2)
    (hget : (heap addr)[i]? = some f)
    (hsh : f.shape.isStructRef = some a)
    (hld : f.isLeafDefault = false)
    (haddr : addr ∈ seen) :
    FieldsOut heap addr seen i (f :: rest) h' s' (a1 ++ a2) where
  grow := G.grow.trans F.grow
  skel := skelEq_trans G.skel F.skel
  untouched b hb hba := (F.untouched b (G.grow hb) hba).trans (G.untouched b hb)
  nodup := by
    refine G.nodup.append F.nodup fun p hp1 hp2 => ?_
    obtain ⟨hnots, hins1⟩ := G.mem p hp1
    rcases F.mem p hp2 with heq | ⟨hnot1, _⟩
    · exact hnots (heq ▸ haddr)
    · exact hnot1 hins1
  mem p hp := by
    rcases List.mem_append.mp hp with hp1 | hp2
    · obtain ⟨hnots, hins1⟩ := G.mem p hp1
      exact Or.inr ⟨hnots, F.grow hins1⟩
    · rcases F.mem p hp2 with heq | ⟨hnot1, hins'⟩
      · exact Or.inl heq
      · exact Or.inr ⟨fun hs => hnot1 (G.grow hs), hins'⟩
  own j := by
    have hnot1 : ((addr, j) ∈ a1) = False := by
      simp only [eq_iff_iff, iff_false]
      intro hj
      exact (G.mem _ hj).1 haddr
    constructor
    · intro hj
      rcases List.mem_append.mp hj with hj1 | hj2
      · exact absurd hj1 (by rw [hnot1]; exact id)
      · obtain ⟨hij, hdef⟩ := (F.own j).mp hj2
        exact ⟨by omega, (defaultedIdx_skelEq G.skel addr j).mpr hdef⟩
    · rintro ⟨hij, hdef⟩
      rcases Nat.eq_or_lt_of_le hij with rfl | hlt
      · obtain ⟨g, hget', hldg⟩ := hdef
        rw [hget] at hget'
        cases hget'
        rw [hld] at hldg
        cases hldg
      · exact List.mem_append.mpr (Or.inr
          ((F.own j).mpr ⟨hlt, (defaultedIdx_skelEq G.skel addr j).mp hdef⟩))
  node b hb hnb := by
    by_cases hb1 : b ∈ s1
    · obtain ⟨iff1, succ1, reach1⟩ := G.node b hb1 hnb
      have hba : b ≠ addr := fun h => hnb (h ▸ haddr)
      refine ⟨fun j => ?_, fun c hc => F.grow (succ1 c hc), ?_⟩
      · rw [← iff1 j]
        constructor
        · intro hj
          rcases List.mem_append.mp hj with hj1 | hj2
          · exact hj1
          · rcases F.mem _ hj2 with heq | ⟨hnot1, _⟩
            · exact absurd heq hba
            · exact absurd hb1 hnot1
        · intro hj
          exact List.mem_append.mpr (Or.inl hj)
      · exact Relation.ReflTransGen.head (structSuccs_of_getElem? hget hsh) reach1
    · obtain ⟨iff2, succ2, reach2⟩ := F.node b hb hb1
      refine ⟨fun j => ?_, fun c hc => ?_, ?_⟩
      · rw [defaultedIdx_skelEq G.skel b j, ← iff2 j]
        constructor
        · intro hj
          rcases List.mem_append.mp hj with hj1 | hj2
          · exact absurd (G.mem _ hj1).2 hb1
          · exact hj2
        · intro hj
          exact List.mem_append.mpr (Or.inr hj)
      · exact succ2 c (by rwa [← structSuccs_skelEq G.skel b])
      · exact (reaches_skelEq G.skel addr b).mpr reach2
  succs c hc := by
    have : c = a ∨ c ∈ structSuccs rest := by
      simpa [structSuccs, hsh] using hc
    rcases this with rfl | hc'
    · exact F.grow G.self_mem
    · exact F.succs c hc'

/-- The field loop satisfies its invariant, provided each nested
`setDefaults` call (`recur`) satisfies the completed-call guarantee. -/
theorem sdf_main {N : Nat} (recur : Heap N → Fin N → Option (Finset (Fin N)) → DRes N)
    (Hrec : ∀ heap a s h' s' apps,
      recur heap a (some s) = .dok h' s' apps → GoOut heap a s h' s' apps) :
    ∀ (flds : List (DField N)) (heap : Heap N) (addr : Fin N) (seen : Finset (Fin N))
      (i : Nat) (h' : Heap N) (s' : Finset (Fin N)) (apps : List (Fin N × Nat)),
      setDefaultsFields recur heap addr seen i flds = .dok h' s' apps →
      (heap addr).drop i = flds → addr ∈ seen →
      FieldsOut heap addr seen i flds h' s' apps := by
  intro flds
  induction flds with
  | nil =>
    intro heap addr seen i h' s' apps H hdrop haddr
    obtain ⟨rfl, rfl, rfl⟩ : heap = h' ∧ seen = s' ∧ ([] : List (Fin N × Nat)) = apps := by
      cases H
      exact ⟨rfl, rfl, rfl⟩
    exact {
      grow := Finset.Subset.refl seen
      skel := skelEq_refl heap
      untouched := fun _ _ _ => rfl
      nodup := List.nodup_nil
      mem := fun p hp => absurd hp (List.not_mem_nil p)
      own := fun j => by
        constructor
        · intro hj
          exact absurd hj (List.not_mem_nil _)
        · rintro ⟨hij, g, hget', _⟩
          rw [drop_nil_getElem? hdrop j hij] at hget'
          cases hget'
      node := fun b hb hnb => absurd hb hnb
      succs := fun c hc => absurd hc (by simp [structSuccs]) }
  | cons f rest ih =>
    intro heap addr seen i h' s' apps H hdrop haddr
    obtain ⟨hget, hdrop'⟩ := drop_cons_inv hdrop
    obtain ⟨sh, dt⟩ := f
    cases sh
    case structRef a =>
      simp only [setDefaultsFields] at H
      split at H
      · rename_i hh1 ss1 aa1 heq
        have G := Hrec heap a seen hh1 ss1 aa1 heq
        cases h2 : setDefaultsFields recur hh1 addr ss1 (i + 1) rest with
        | dok hh2 ss2 aa2 =>
          have hh1addr : hh1 addr = heap addr := G.untouched addr haddr
          have F := ih hh1 addr ss1 (i + 1) hh2 ss2 aa2 h2
            (by rw [hh1addr]; exact hdrop') (G.grow haddr)
          rw [h2] at H
          simp only [DRes.withApps] at H
          cases H
          exact fieldsOut_struct G F hget rfl (by simp [DField.isLeafDefault]) haddr
        | derr e => rw [h2] at H; simp only [DRes.withApps] at H; cases H
        | dpanic e => rw [h2] at H; simp only [DRes.withApps] at H; cases H
        | fuelOut => rw [h2] at H; simp only [DRes.withApps] at H; cases H
      · cases H
      · cases H
      · cases H
    case parseDef run =>
      simp only [setDefaultsFields] at H
      by_cases hdt : dt = ""
      · rw [if_pos hdt] at H
        have F := ih heap addr seen (i + 1) h' s' apps H hdrop' haddr
        exact fieldsOut_skip F hget (by simp [DField.isLeafDefault, hdt]) rfl
      · rw [if_neg hdt] at H
        split at H
        · cases H
        · cases h2 : setDefaultsFields recur heap addr seen (i + 1) rest with
          | dok hh2 ss2 aa2 =>
            have F := ih heap addr seen (i + 1) hh2 ss2 aa2 h2 hdrop' haddr
            rw [h2] at H
            simp only [DRes.withApp] at H
            cases H
            exact fieldsOut_app F (skelEq_refl heap) (fun _ _ => rfl) hget
              (by simp [DField.isLeafDefault, hdt]) haddr rfl
          | derr e => rw [h2] at H; simp only [DRes.withApp] at H; cases H
          | dpanic e => rw [h2] at H; simp only [DRes.withApp] at H; cases H
          | fuelOut => rw [h2] at H; simp only [DRes.withApp] at H; cases H
    case prim v =>
      simp only [setDefaultsFields] at H
      by_cases hdt : dt = ""
      · rw [if_pos hdt] at H
        have F := ih heap addr seen (i + 1) h' s' apps H hdrop' haddr
        exact fieldsOut_skip F hget (by simp [DField.isLeafDefault, hdt]) rfl
      · rw [if_neg hdt] at H
        split at H
        · rename_i v2 _
          cases h2 : setDefaultsFields recur
              (heapUpdate heap addr i ⟨.prim v2.val, dt⟩) addr seen (i + 1) rest with
          | dok hh2 ss2 aa2 =>
            have F := ih (heapUpdate heap addr i ⟨.prim v2.val, dt⟩) addr seen (i + 1)
              hh2 ss2 aa2 h2 (by rw [heapUpdate_drop]; exact hdrop') haddr
            rw [h2] at H
            simp only [DRes.withApp] at H
            cases H
            exact fieldsOut_app F (skelEq_update heap addr i hget rfl)
              (fun b hb => heapUpdate_other heap addr i _ b hb) hget
              (by simp [DField.isLeafDefault, hdt]) haddr rfl
          | derr e => rw [h2] at H; simp only [DRes.withApp] at H; cases H
          | dpanic e => rw [h2] at H; simp only [DRes.withApp] at H; cases H
          | fuelOut => rw [h2] at H; simp only [DRes.withApp] at H; cases H
        · cases H
        · cases H
    case intSlice xs =>
      simp only [setDefaultsFields] at H
      by_cases hdt : dt = ""
      · rw [if_pos hdt] at H
        have F := ih heap addr seen (i + 1) h' s' apps H hdrop' haddr
        exact fieldsOut_skip F hget (by simp [DField.isLeafDefault, hdt]) rfl
      · rw [if_neg hdt] at H
        split at H
        · cases H
        · rename_i ys _
          cases h2 : setDefaultsFields recur
              (heapUpdate heap addr i ⟨.intSlice ys, dt⟩) addr seen (i + 1) rest with
          | dok hh2 ss2 aa2 =>
            have F := ih (heapUpdate heap addr i ⟨.intSlice ys, dt⟩) addr seen (i + 1)
              hh2 ss2 aa2 h2 (by rw [heapUpdate_drop]; exact hdrop') haddr
            rw [h2] at H
            simp only [DRes.withApp] at H
            cases H
            exact fieldsOut_app F (skelEq_update heap addr i hget rfl)
              (fun b hb => heapUpdate_other heap addr i _ b hb) hget
              (by simp [DField.isLeafDefault, hdt]) haddr rfl
          | derr e => rw [h2] at H; simp only [DRes.withApp] at H; cases H
          | dpanic e => rw [h2] at H; simp only [DRes.withApp] at H; cases H
          | fuelOut => rw [h2] at H; simp only [DRes.withApp] at H; cases H
    case strSlice xs =>
      simp only [setDefaultsFields] at H
      by_cases hdt : dt = ""
      · rw [if_pos hdt] at H
        have F := ih heap addr seen (i + 1) h' s' apps H hdrop' haddr
        exact fieldsOut_skip F hget (by simp [DField.isLeafDefault, hdt]) rfl
      · rw [if_neg hdt] at H
        cases h2 : setDefaultsFields recur
            (heapUpdate heap addr i ⟨.strSlice (splitComma dt), dt⟩) addr seen (i + 1) rest with
        | dok hh2 ss2 aa2 =>
          have F := ih (heapUpdate heap addr i ⟨.strSlice (splitComma dt), dt⟩) addr seen
            (i + 1) hh2 ss2 aa2 h2 (by rw [heapUpdate_drop]; exact hdrop') haddr
          rw [h2] at H
          simp only [DRes.withApp] at H
          cases H
          exact fieldsOut_app F (skelEq_update heap addr i hget rfl)
            (fun b hb => heapUpdate_other heap addr i _ b hb) hget
            (by simp [DField.isLeafDefault, hdt]) haddr rfl
        | derr e => rw [h2] at H; simp only [DRes.withApp] at H; cases H
        | dpanic e => rw [h2] at H; simp only [DRes.withApp] at H; cases H
        | fuelOut => rw [h2] at H; simp only [DRes.withApp] at H; cases H
    case unsup k =>
      simp only [setDefaultsFields] at H
      by_cases hdt : dt = ""
      · rw [if_pos hdt] at H
        have F := ih heap addr seen (i + 1) h' s' apps H hdrop' haddr
        exact fieldsOut_skip F hget (by simp [DField.isLeafDefault, hdt]) rfl
      · rw [if_neg hdt] at H
        cases H

/-- A completed `setDefaults` call meets the completed-call guarantee
(fuel induction over `sdf_main`). -/
theorem sd_main {N : Nat} :
    ∀ (fuel : Nat) (heap : Heap N) (addr : Fin N) (seen : Option (Finset (Fin N)))
      (h' : Heap N) (s' : Finset (Fin N)) (apps : List (Fin N × Nat)),
      setDefaultsGo fuel heap addr seen = .dok h' s' apps →
      GoOut heap addr (seen.getD ∅) h' s' apps := by
  intro fuel
  induction fuel with
  | zero =>
    intro heap addr seen h' s' apps H
    cases H
  | succ fuel ih =>
    intro heap addr seen h' s' apps H
    simp only [setDefaultsGo] at H
    by_cases hc : seen.isSome = true ∧ addr ∈ seen.getD ∅
    · rw [if_pos hc] at H
      cases H
      exact {
        grow := Finset.Subset.refl _
        self_mem := hc.2
        skel := skelEq_refl heap
        untouched := fun _ _ => rfl
        nodup := List.nodup_nil
        mem := fun p hp => absurd hp (List.not_mem_nil p)
        node := fun b hb hnb => absurd hb hnb }
    · rw [if_neg hc] at H
      have haddr : addr ∉ seen.getD ∅ := by
        cases seen with
        | none => simp
        | some s =>
          intro hmem
          exact hc ⟨rfl, hmem⟩
      have F := sdf_main (setDefaultsGo fuel)
        (fun hp a s hh ss aa hcall => ih hp a (some s) hh ss aa hcall)
        (heap addr) heap addr (insert addr (seen.getD ∅)) 0 h' s' apps H
        (List.drop_zero _) (Finset.mem_insert_self addr _)
      refine {
        grow := (Finset.subset_insert addr _).trans F.grow
        self_mem := F.grow (Finset.mem_insert_self addr _)
        skel := F.skel
        untouched := ?_
        nodup := F.nodup
        mem := ?_
        node := ?_ }
      · intro b hb
        exact F.untouched b (Finset.mem_insert_of_mem hb) (fun hba => haddr (hba ▸ hb))
      · intro p hp
        rcases F.mem p hp with heq | ⟨hnot, hin⟩
        · exact ⟨heq ▸ haddr, heq ▸ F.grow (Finset.mem_insert_self addr _)⟩
        · exact ⟨fun hs => hnot (Finset.mem_insert_of_mem hs), hin⟩
      · intro b hb hnb
        by_cases hba : b = addr
        · subst hba
          refine ⟨fun i => ?_, F.succs, Relation.ReflTransGen.refl⟩
          rw [F.own i]
          simp
        · have hbni : b ∉ insert addr (seen.getD ∅) := by
            simp [Finset.mem_insert, hba]
            exact hnb
          exact F.node b hb hbni

/-- The field loop never exhausts fuel when each nested call has enough
fuel for the nodes still unvisited. -/
theorem sdf_no_fuelOut {N : Nat}
    (recur : Heap N → Fin N → Option (Finset (Fin N)) → DRes N) (K : Nat)
    (HrecT : ∀ heap (a : Fin N) (s : Finset (Fin N)),
      N + 2 ≤ K + s.card → recur heap a (some s) ≠ .fuelOut)
    (HrecG : ∀ heap (a : Fin N) s h' s' apps,
      recur heap a (some s) = .dok h' s' apps → s ⊆ s') :
    ∀ (flds : List (DField N)) (heap : Heap N) (addr : Fin N)
      (seen : Finset (Fin N)) (i : Nat), N + 2 ≤ K + seen.card →
      setDefaultsFields recur heap addr seen i flds ≠ .fuelOut := by
  intro flds
  induction flds with
  | nil =>
    intro heap addr seen i _ H
    cases H
  | cons f rest ih =>
    intro heap addr seen i hb H
    obtain ⟨sh, dt⟩ := f
    cases sh <;> simp only [setDefaultsFields] at H
    case structRef a =>
      split at H
      · rename_i hh1 ss1 aa1 heq
        have hsub : seen ⊆ ss1 := HrecG heap a seen hh1 ss1 aa1 heq
        have hb2 : N + 2 ≤ K + ss1.card := by
          have := Finset.card_le_card hsub
          omega
        cases h2 : setDefaultsFields recur hh1 addr ss1 (i + 1) rest with
        | fuelOut => exact ih hh1 addr ss1 (i + 1) hb2 h2
        | dok hh2 ss2 aa2 => rw [h2] at H; simp only [DRes.withApps] at H; cases H
        | derr e => rw [h2] at H; simp only [DRes.withApps] at H; cases H
        | dpanic e => rw [h2] at H; simp only [DRes.withApps] at H; cases H
      · cases H
      · cases H
      · rename_i heq
        exact HrecT heap a seen hb heq
    case parseDef run =>
      by_cases hdt : dt = ""
      · rw [if_pos hdt] at H
        exact ih heap addr seen (i + 1) hb H
      · rw [if_neg hdt] at H
        split at H
        · cases H
        · cases h2 : setDefaultsFields recur heap addr seen (i + 1) rest with
          | fuelOut => exact ih heap addr seen (i + 1) hb h2
          | dok hh2 ss2 aa2 => rw [h2] at H; simp only [DRes.withApp] at H; cases H
          | derr e => rw [h2] at H; simp only [DRes.withApp] at H; cases H
          | dpanic e => rw [h2] at H; simp only [DRes.withApp] at H; cases H
    case prim v =>
      by_cases hdt : dt = ""
      · rw [if_pos hdt] at H
        exact ih heap addr seen (i + 1) hb H
      · rw [if_neg hdt] at H
        split at H
        · rename_i v2 _
          cases h2 : setDefaultsFields recur
              (heapUpdate heap addr i ⟨.prim v2.val, dt⟩) addr seen (i + 1) rest with
          | fuelOut => exact ih _ addr seen (i + 1) hb h2
          | dok hh2 ss2 aa2 => rw [h2] at H; simp only [DRes.withApp] at H; cases H
          | derr e => rw [h2] at H; simp only [DRes.withApp] at H; cases H
          | dpanic e => rw [h2] at H; simp only [DRes.withApp] at H; cases H
        · cases H
        · cases H
    case intSlice xs =>
      by_cases hdt : dt = ""
      · rw [if_pos hdt] at H
        exact ih heap addr seen (i + 1) hb H
      · rw [if_neg hdt] at H
        split at H
        · cases H
        · rename_i ys _
          cases h2 : setDefaultsFields recur
              (heapUpdate heap addr i ⟨.intSlice ys, dt⟩) addr seen (i + 1) rest with
          | fuelOut => exact ih _ addr seen (i + 1) hb h2
          | dok hh2 ss2 aa2 => rw [h2] at H; simp only [DRes.withApp] at H; cases H
          | derr e => rw [h2] at H; simp only [DRes.withApp] at H; cases H
          | dpanic e => rw [h2] at H; simp only [DRes.withApp] at H; cases H
    case strSlice xs =>
      by_cases hdt : dt = ""
      · rw [if_pos hdt] at H
        exact ih heap addr seen (i + 1) hb H
      · rw [if_neg hdt] at H
        cases h2 : setDefaultsFields recur
            (heapUpdate heap addr i ⟨.strSlice (splitComma dt), dt⟩) addr seen (i + 1) rest with
        | fuelOut => exact ih _ addr seen (i + 1) hb h2
        | dok hh2 ss2 aa2 => rw [h2] at H; simp only [DRes.withApp] at H; cases H
        | derr e => rw [h2] at H; simp only [DRes.withApp] at H; cases H
        | dpanic e => rw [h2] at H; simp only [DRes.withApp] at H; cases H
    case unsup k =>
      by_cases hdt : dt = ""
      · rw [if_pos hdt] at H
        exact ih heap addr seen (i + 1) hb H
      · rw [if_neg hdt] at H
        cases H

/-- With `N + 2` fuel (less the already-visited count) `setDefaults`
never exhausts fuel: the `seen` set makes the recursion terminate. -/
theorem sd_no_fuelOut {N : Nat} :
    ∀ (fuel : Nat) (heap : Heap N) (addr : Fin N) (seen : Option (Finset (Fin N))),
      N + 2 ≤ fuel + (seen.getD ∅).card →
      setDefaultsGo fuel heap addr seen ≠ .fuelOut := by
  intro fuel
  induction fuel with
  | zero =>
    intro heap addr seen hb _
    have hcard : (seen.getD ∅).card ≤ N := by
      have := Finset.card_le_univ (seen.getD ∅)
      simpa using this
    omega
  | succ fuel ih =>
    intro heap addr seen hb H
    simp only [setDefaultsGo] at H
    by_cases hc : seen.isSome = true ∧ addr ∈ seen.getD ∅
    · rw [if_pos hc] at H
      cases H
    · rw [if_neg hc] at H
      have haddr : addr ∉ seen.getD ∅ := by
        cases seen with
        | none => simp
        | some s =>
          intro hmem
          exact hc ⟨rfl, hmem⟩
      have hb2 : N + 2 ≤ fuel + (insert addr (seen.getD ∅)).card := by
        rw [Finset.card_insert_of_not_mem haddr]
        omega
      exact sdf_no_fuelOut (setDefaultsGo fuel) fuel
        (fun hp a s hbs => ih hp a (some s) hbs)
        (fun hp a s hh ss aa hcall => (sd_main fuel hp a (some s) hh ss aa hcall).grow)
        (heap addr) heap addr (insert addr (seen.getD ∅)) 0 hb2 H

/-- C3, confirmed: for every record graph — cyclic or with nodes shared
between several paths — `setDefaults` terminates (any fuel from `N + 2`
on is never exhausted, `N` being the number of struct nodes), and a
successful run applies each leaf default exactly once per distinct
record identity: the application trace is duplicate-free and contains
`(a, i)` exactly when node `a` is reachable from the root and its field
`i` is a leaf field carrying a default tag. -/
theorem c3_setDefaults_cycle_safe {N : Nat} (heap : Heap N) (root : Fin N)
    (fuel : Nat) (hfuel : N + 2 ≤ fuel) :
    setDefaultsGo fuel heap root none ≠ .fuelOut ∧
    ∀ h' s' apps, setDefaultsGo fuel heap root none = .dok h' s' apps →
      apps.Nodup ∧
      ∀ (a : Fin N) (i : Nat),
        ((a, i) ∈ apps ↔ (Reaches heap root a ∧ DefaultedIdx heap a i)) := by
  constructor
  · exact sd_no_fuelOut fuel heap root none (by simpa using hfuel)
  · intro h' s' apps H
    have G := sd_main fuel heap root none h' s' apps H
    refine ⟨G.nodup, fun a i => ?_⟩
    have hclosed : ∀ b, Reaches heap root b → b ∈ s' := by
      intro b hb
      induction hb with
      | refl => exact G.self_mem
      | tail _ hstep ihx =>
        exact (G.node _ ihx (Finset.not_mem_empty _)).2.1 _ hstep
    constructor
    · intro hmem
      have hin : a ∈ s' := (G.mem _ hmem).2
      have hnode := G.node a hin (Finset.not_mem_empty _)
      exact ⟨hnode.2.2, (hnode.1 i).mp hmem⟩
    · rintro ⟨hreach, hdef⟩
      exact ((G.node a (hclosed a hreach) (Finset.not_mem_empty _)).1 i).mpr hdef

/-- Witness for `c3_setDefaults_cycle_safe` at the cyclic
`DefaultStruct`/`Inner` graph of `utils_test.go` (fuel 4 = N + 2), with
the concrete run: each of the three defaults applied once, in field
order, and the final payloads matching the test's expectations. -/
theorem c3_witness :
    2 + 2 ≤ 4 ∧
    (setDefaultsGo 4 testHeap ⟨0, Nat.zero_lt_two⟩ none ≠ .fuelOut ∧
     ∀ h' s' apps, setDefaultsGo 4 testHeap ⟨0, Nat.zero_lt_two⟩ none = .dok h' s' apps →
       apps.Nodup ∧
       ∀ (a : Fin 2) (i : Nat),
         ((a, i) ∈ apps ↔
           (Reaches testHeap ⟨0, Nat.zero_lt_two⟩ a ∧ DefaultedIdx testHeap a i))) ∧
    (setDefaultsGo 4 testHeap ⟨0, Nat.zero_lt_two⟩ none).appsOf =
      some [(⟨0, Nat.zero_lt_two⟩, 0), (⟨0, Nat.zero_lt_two⟩, 1), (⟨1, Nat.one_lt_two⟩, 0)] ∧
    (setDefaultsGo 4 testHeap ⟨0, Nat.zero_lt_two⟩ none).nodeAt ⟨0, Nat.zero_lt_two⟩ =
      some [⟨.prim (.stringV "outer"), "outer"⟩, ⟨.intSlice [10, 20], "10,20"⟩,
            ⟨.structRef ⟨1, Nat.one_lt_two⟩, ""⟩] ∧
    (setDefaultsGo 4 testHeap ⟨0, Nat.zero_lt_two⟩ none).nodeAt ⟨1, Nat.one_lt_two⟩ =
      some [⟨.prim (.stringV "inner"), "inner"⟩, ⟨.structRef ⟨0, Nat.zero_lt_two⟩, ""⟩] :=
  ⟨by omega, c3_setDefaults_cycle_safe testHeap ⟨0, Nat.zero_lt_two⟩ 4 (by omega),
    rfl, rfl, rfl⟩

end Recli
